import Mathlib

/-!
Verification of the `sign-url` library (src/index.ts): a shallow embedding of
the `SignUrl` class — `sign`, `verify`, `extractUrlData`, `generateSignature` —
together with the JS string primitives they rely on (`String.indexOf`,
`String.toUpperCase`, `parseInt`, the global regex replace `/&sig=([^&]\w+)/g`,
and the WHATWG `URLSearchParams` lookup used by `new URL(url).searchParams.get`).

Modelling conventions:
* JS strings are Lean `String`s; reasoning happens on their `List Char` data.
  Multi-byte percent-escapes in `URLSearchParams` decoding are decoded one byte
  per `Char` (identical to JS on ASCII data, which is all the claims exercise).
* The HMAC primitive of node's `crypto` is an abstract parameter
  `HmacPrim : algorithm → key bytes → message bytes → digest bytes`; the node
  `Hmac` builder object (`createHmac(..).update(..).update(..).digest("hex")`)
  is modelled explicitly, as is `getHashes()` (a parameter `supported`).
* `randomBytes(16).toString("base64url")` and `dayjs().valueOf()` are
  nondeterministic inputs; `sign`/`verify` take the nonce `r` and the clock
  `now` as explicit arguments.  `dayjs().add(t, "m").valueOf()` is `now`
  plus `t * 60000` milliseconds.
* JS numbers that the library handles (timestamps, ttl minutes) are naturals;
  number-to-string conversion is decimal printing, which models JS `toString`
  on integers below 10^21.
* Exceptions are `Except UrlError`; each constructor corresponds to one of the
  library's error classes.
* Well-formedness of the URL for the `new URL` constructor (presence of a
  scheme and a valid host) is not modelled: `extractUrlData` is total and acts
  on the query substring of its input.
-/

namespace SignUrlModel

/-! ### JS character classes and low-level string utilities -/

/-- JS regular-expression word character class `\w`, that is `[A-Za-z0-9_]`. -/
def isWordChar (c : Char) : Bool :=
  c.isAlphanum || c = '_'

/-- Value of a hexadecimal digit character, if it is one. -/
def hexVal (c : Char) : Option Nat :=
  if '0' ≤ c ∧ c ≤ '9' then some (c.toNat - 48)
  else if 'a' ≤ c ∧ c ≤ 'f' then some (c.toNat - 87)
  else if 'A' ≤ c ∧ c ≤ 'F' then some (c.toNat - 55)
  else none

/-- The whitespace characters skipped by JS `parseInt` that can occur in
ASCII data (space, tab, line feed, carriage return). -/
def isJsSpace (c : Char) : Bool :=
  c = ' ' || c = '\t' || c = '\n' || c = '\r'

/-- Lowercase hexadecimal digit predicate. -/
def isLowerHexChar (c : Char) : Bool :=
  c.isDigit || ('a' ≤ c && c ≤ 'f')

/-- Every character of the list before the first occurrence of `stop`. -/
def truncAtChar (stop : Char) : List Char → List Char
  | [] => []
  | c :: t => if c = stop then [] else c :: truncAtChar stop t

/-- Everything after the first occurrence of `stop`, if `stop` occurs. -/
def afterFirstChar (stop : Char) : List Char → Option (List Char)
  | [] => none
  | c :: t => if c = stop then some t else afterFirstChar stop t

/-- Split a character list on the separator `&`, keeping empty pieces
(the splitting underlying `URLSearchParams`). -/
def splitAmp : List Char → List (List Char)
  | [] => [[]]
  | c :: t =>
    if c = '&' then [] :: splitAmp t
    else
      match splitAmp t with
      | [] => [[c]]
      | p :: ps => (c :: p) :: ps

/-- The `application/x-www-form-urlencoded` decoding used by
`URLSearchParams`: `+` becomes a space and `%XY` hex escapes are decoded
(one byte per character; identical to JS on ASCII data). -/
def formDecode : List Char → List Char
  | [] => []
  | '+' :: t => ' ' :: formDecode t
  | '%' :: h :: l :: t2 =>
    match hexVal h, hexVal l with
    | some a, some b => Char.ofNat (16 * a + b) :: formDecode t2
    | _, _ => '%' :: formDecode (h :: l :: t2)
  | c :: t => c :: formDecode t

/-- Position of the first occurrence of `pat` in a character list, if any. -/
def firstMatchPos (pat : List Char) : List Char → Option Nat
  | [] => if pat.isPrefixOf ([] : List Char) then some 0 else none
  | c :: t =>
    if pat.isPrefixOf (c :: t) then some 0
    else (firstMatchPos pat t).map (· + 1)

/-- JS `String.prototype.indexOf`: index of the first occurrence of `pat`
in `hay`, or `-1`. -/
def jsIndexOf (hay pat : String) : Int :=
  match firstMatchPos pat.data hay.data with
  | some n => (n : Int)
  | none => -1

/-- JS `String.prototype.toUpperCase` (ASCII range, which is what
`Char.toUpper` implements and what all claims exercise). -/
def jsToUpper (s : String) : String :=
  String.mk (s.data.map Char.toUpper)

/-! ### JS number formatting and parsing -/

/-- Fuel-driven decimal printer (structural recursion on the fuel, so that
the kernel can evaluate it; the fallback arm is unreachable once the fuel is
at least the number being printed). -/
def natToDecAux : Nat → Nat → List Char
  | 0, n => [Char.ofNat (48 + n % 10)]
  | fuel + 1, n =>
    if n < 10 then [Char.ofNat (48 + n)]
    else natToDecAux fuel (n / 10) ++ [Char.ofNat (48 + n % 10)]

/-- Decimal digit list of a natural number; models JS number-to-string
conversion (template literal interpolation) for integers below 10^21. -/
def natToDec (n : Nat) : List Char :=
  natToDecAux n n

/-- Value of the maximal leading run of decimal digits; `none` if there is
no leading digit (JS `NaN`). -/
def decDigitsVal (l : List Char) : Option Nat :=
  match l.takeWhile Char.isDigit with
  | [] => none
  | ds => some (ds.foldl (fun a c => 10 * a + (c.toNat - 48)) 0)

/-- Value of the maximal leading run of hexadecimal digits; `none` if there
is no leading hex digit. -/
def hexDigitsVal (l : List Char) : Option Nat :=
  match l.takeWhile (fun c => (hexVal c).isSome) with
  | [] => none
  | ds => some (ds.foldl (fun a c => 16 * a + ((hexVal c).getD 0)) 0)

/-- JS `parseInt` after sign handling: `0x`/`0X` prefixes select
hexadecimal, otherwise decimal. -/
def jsParseIntCore (l : List Char) : Option Nat :=
  match l with
  | c0 :: c1 :: t =>
    if c0 = '0' && (c1 = 'x' || c1 = 'X') then hexDigitsVal t
    else decDigitsVal (c0 :: c1 :: t)
  | _ => decDigitsVal l

/-- JS `parseInt(s)` (radix argument omitted): skip whitespace, optional
sign, then parse a leading digit run; `none` models `NaN`. -/
def jsParseInt (s : String) : Option Int :=
  match s.data.dropWhile isJsSpace with
  | c :: t =>
    if c = '-' then (jsParseIntCore t).map (fun n => -(n : Int))
    else if c = '+' then (jsParseIntCore t).map (fun n => (n : Int))
    else (jsParseIntCore (c :: t)).map (fun n => (n : Int))
  | [] => none

/-! ### The global regex replace `url.replace(/&sig=([^&]\w+)/g, "")` -/

/-- The literal part `&sig=` of the signature-removal regex. -/
def sigPat : List Char := ['&', 's', 'i', 'g', '=']

/-- Whether the regex `&sig=[^&]\w+` matches at the head of the list. -/
def isSigMatch (l : List Char) : Bool :=
  sigPat.isPrefixOf l &&
    (match l.drop 5 with
     | c0 :: c1 :: _ => !(c0 = '&') && isWordChar c1
     | _ => false)

/-- Length of the (greedy) regex match `&sig=[^&]\w+` at the head of the
list: the five literal characters, `[^&]`, the first `\w`, then the maximal
run of further word characters. -/
def sigMatchLen (l : List Char) : Nat :=
  7 + ((l.drop 7).takeWhile isWordChar).length

/-- Fuel-driven scanner for the signature-removal replace (structural
recursion on the fuel, so that the kernel can evaluate it; the fuel never
runs out when it starts at the length of the list). -/
def stripSigAux : Nat → List Char → List Char
  | 0, l => l
  | fuel + 1, l =>
    match l with
    | [] => []
    | c :: t =>
      if isSigMatch (c :: t) then stripSigAux fuel ((c :: t).drop (sigMatchLen (c :: t)))
      else c :: stripSigAux fuel t

/-- JS `url.replace(/&sig=([^&]\w+)/g, "")`: scan left to right, deleting
every (greedy, leftmost) match of the pattern and continuing after it. -/
def stripSig (l : List Char) : List Char :=
  stripSigAux l.length l

/-- Scanner for the two-character pattern `&s`: `noAmpS l` holds when no
`&` in `l` is immediately followed by `s` (hence no `&sig=` match can start
inside `l`). -/
def noAmpS : List Char → Bool
  | [] => true
  | [_] => true
  | c :: d :: t => !(c = '&' && d = 's') && noAmpS (d :: t)

/-! ### The WHATWG URL query parsing used by `extractUrlData` -/

/-- The query string of a URL: the part after the first `?` that precedes
the first `#`.  (In a WHATWG URL the fragment starts at the first `#`; a
later `?` belongs to the query itself.) -/
def queryOf (url : String) : List Char :=
  (afterFirstChar '?' (truncAtChar '#' url.data)).getD []

/-- Name of one `name=value` piece of a query string (decoded). -/
def pieceName (p : List Char) : List Char :=
  formDecode (truncAtChar '=' p)

/-- Value of one `name=value` piece of a query string (decoded); a piece
without `=` has the empty value. -/
def pieceVal (p : List Char) : List Char :=
  formDecode ((afterFirstChar '=' p).getD [])

/-- `new URL(url).searchParams.get(name)`: the decoded value of the first
non-empty query piece whose decoded name equals `name`. -/
def getParam (url : String) (name : List Char) : Option String :=
  (((splitAmp (queryOf url)).filter (fun p => !p.isEmpty)).find?
      (fun p => pieceName p == name)).map (fun p => String.mk (pieceVal p))

/-! ### Bytes, hex rendering and the node `Hmac` builder -/

/-- UTF-8 encoding of one character (the encoding node `Buffer.from` and
`Hmac.update` apply to JS strings). -/
def charUtf8 (c : Char) : List Nat :=
  let n := c.toNat
  if n < 128 then [n]
  else if n < 2048 then [192 + n / 64, 128 + n % 64]
  else if n < 65536 then [224 + n / 4096, 128 + (n / 64) % 64, 128 + n % 64]
  else [240 + n / 262144, 128 + (n / 4096) % 64, 128 + (n / 64) % 64, 128 + n % 64]

/-- UTF-8 byte sequence of a string. -/
def utf8Bytes (s : String) : List Nat :=
  s.data.foldr (fun c acc => charUtf8 c ++ acc) []

/-- Lowercase hexadecimal digit character of a value below 16. -/
def hexDigitChar (d : Nat) : Char :=
  if d < 10 then Char.ofNat (48 + d) else Char.ofNat (87 + d)

/-- Node `digest("hex")` rendering: two lowercase hex digits per byte. -/
def bytesToHexLower (bs : List Nat) : String :=
  String.mk (bs.foldr (fun b acc => hexDigitChar (b / 16) :: hexDigitChar (b % 16) :: acc) [])

/-- The HMAC primitive of node's `crypto` module, abstract in this model:
algorithm name, key bytes and message bytes to digest bytes. -/
def HmacPrim : Type :=
  String → List Nat → List Nat → List Nat

/-- State of a node `Hmac` object: algorithm, key, and the bytes fed so
far via `update`. -/
structure NodeHmac where
  alg : String
  keyBytes : List Nat
  buf : List Nat

/-- Model of `createHmac(algorithm, key)`. -/
def createHmac (alg : String) (key : String) : NodeHmac :=
  ⟨alg, utf8Bytes key, []⟩

/-- Model of `Hmac.prototype.update(data)`: appends the UTF-8 bytes of
`data` to the buffered message. -/
def NodeHmac.update (h : NodeHmac) (data : String) : NodeHmac :=
  ⟨h.alg, h.keyBytes, h.buf ++ utf8Bytes data⟩

/-- Model of `Hmac.prototype.digest("hex")`. -/
def NodeHmac.digestHex (prim : HmacPrim) (h : NodeHmac) : String :=
  bytesToHexLower (prim h.alg h.keyBytes h.buf)

/-- The full digest expression of `generateSignature`:
`createHmac(algorithm, key).update(data).update(key).digest("hex")`. -/
def hmacHexDigest (prim : HmacPrim) (alg key data : String) : String :=
  NodeHmac.digestHex prim ((createHmac alg key).update data |>.update key)

/-! ### Errors and the `SignUrl` class -/

/-- The library's error classes: `NotProvideKeyError`,
`NotSupportedAlgorithmError`, `BlackholedSignatureError`,
`ExpiredSignatureError`, `MismatchSignatureError`. -/
inductive UrlError where
  | notProvideKey
  | notSupportedAlgorithm
  | blackholed
  | expired
  | mismatch
deriving DecidableEq

instance {ε α : Type} [DecidableEq ε] [DecidableEq α] : DecidableEq (Except ε α) :=
  fun a b =>
    match a, b with
    | .error x, .error y =>
      if h : x = y then isTrue (by rw [h]) else isFalse (by intro hh; cases hh; exact h rfl)
    | .ok x, .ok y =>
      if h : x = y then isTrue (by rw [h]) else isFalse (by intro hh; cases hh; exact h rfl)
    | .error _, .ok _ => isFalse (by intro hh; cases hh)
    | .ok _, .error _ => isFalse (by intro hh; cases hh)

/-- `isValidAlgorithm`: membership of the algorithm in `getHashes()`
(the runtime's supported list, a parameter of the model). -/
def isValidAlgorithm (supported : List String) (algorithm : String) : Bool :=
  supported.contains algorithm

/-- `generateSignature(data, algorithm)`: throws `NotProvideKeyError` when
the key is falsy, `NotSupportedAlgorithmError` when the algorithm is not
supported, and otherwise returns the hex HMAC digest of `data` followed by
the key. -/
def generateSignature (supported : List String) (prim : HmacPrim)
    (key : String) (algorithm : String) (data : String) : Except UrlError String :=
  if key == "" then .error .notProvideKey
  else if !(isValidAlgorithm supported algorithm) then .error .notSupportedAlgorithm
  else .ok (hmacHexDigest prim algorithm key data)

/-- The `method` field of `SignOptions`: absent, a single string, or a
list of strings. -/
inductive MethodOpt where
  | absent
  | str (s : String)
  | list (l : List String)
deriving DecidableEq

/-- `SignOptions` of `sign`.  Absent numeric fields are `none`; an absent
`ipAddress` is the empty string (indistinguishable from `""` under JS
truthiness, which is all the code observes). -/
structure SignOptions where
  method : MethodOpt
  ttl : Option Nat
  expires : Option Nat
  ipAddress : String
deriving DecidableEq

/-- `VerifyOptions` of `verify`; absent fields are empty strings
(indistinguishable under JS truthiness, which is all the code observes). -/
structure VerifyOptions where
  method : String
  ipAddress : String
deriving DecidableEq

/-- The `hash` constructor option: a named algorithm or a custom function. -/
inductive HashOpt where
  | alg (s : String)
  | fn (f : String → String)

/-- `SignatureOptions` of the constructor. -/
structure SignatureOptions where
  key : Option String
  ttl : Option Nat
  hash : Option HashOpt

/-- The constructed `SignUrl` object: the stored key, ttl, and the hash
closure (which can throw, hence `Except`). -/
structure SignUrl where
  key : String
  ttl : Nat
  hash : String → Except UrlError String

/-- The `SignUrl` constructor: defaults `ttl = 30` and `hash = "sha256"`;
a string `hash` becomes the `generateSignature` closure, a function is
used verbatim. -/
def mkSignUrl (supported : List String) (prim : HmacPrim) (o : SignatureOptions) : SignUrl :=
  let key := o.key.getD ""
  let ttl := o.ttl.getD 30
  match o.hash.getD (.alg "sha256") with
  | .alg a => ⟨key, ttl, fun data => generateSignature supported prim key a data⟩
  | .fn f => ⟨key, ttl, fun data => .ok (f data)⟩

/-! ### `sign` -/

/-- JS truthiness of an optional number (`undefined` and `0` are falsy). -/
def optTruthy : Option Nat → Bool
  | none => false
  | some n => !(n == 0)

/-- JS truthiness of the `method` option (`undefined` and `""` are falsy;
an array, even empty, is truthy). -/
def methodTruthy : MethodOpt → Bool
  | .absent => false
  | .str s => !(s == "")
  | .list _ => true

/-- Expiry resolution of `sign` (lines 200–206): engine ttl if truthy,
else `options.ttl` if truthy, else `options.expires` if truthy, else
absent.  `dayjs().add(t, "m").valueOf()` is `now + t * 60000`. -/
def resolveExpires (engTtl : Nat) (opts : SignOptions) (now : Nat) : Option Nat :=
  if !(engTtl == 0) then some (now + engTtl * 60000)
  else if optTruthy opts.ttl then some (now + (opts.ttl.getD 0) * 60000)
  else if optTruthy opts.expires then some (opts.expires.getD 0)
  else none

/-- The `method` attribute string that ends up in the signed URL
(lines 208–210 combined with the `${method || ""}` interpolation):
comma-join a list, uppercase, empty when the option is falsy. -/
def resolveMethodStr (opts : SignOptions) : String :=
  if methodTruthy opts.method then
    jsToUpper (match opts.method with
      | .absent => ""
      | .str s => s
      | .list l => String.intercalate "," l)
  else ""

/-- The `ip` attribute string that ends up in the signed URL (line 212
combined with the `${ipAddress || ""}` interpolation): the identity on our
string encoding of the option. -/
def resolveIpStr (opts : SignOptions) : String :=
  opts.ipAddress

/-- The `expires` attribute string (`${expires || ""}`). -/
def expiresStr (engTtl : Nat) (opts : SignOptions) (now : Nat) : String :=
  match resolveExpires engTtl opts now with
  | none => ""
  | some e => if e = 0 then "" else String.mk (natToDec e)

/-- The URL with the attribute query parameters appended (lines 214–217):
`?` if the URL has no `?` yet, else `&`, then
`expires=…&ip=…&method=…&r=…` in this fixed order.  This is exactly the
string the signer hashes. -/
def urlWithAttrs (engTtl : Nat) (url : String) (opts : SignOptions)
    (r : String) (now : Nat) : String :=
  url ++ (if '?' ∈ url.data then "&" else "?") ++ "expires=" ++
    expiresStr engTtl opts now ++ "&ip=" ++ resolveIpStr opts ++ "&method=" ++
    resolveMethodStr opts ++ "&r=" ++ r

/-- `sign(url, options)` (lines 195–222), with the random nonce `r` and
the clock `now` as explicit inputs: append the attributes, hash, append
`&sig=<digest>`. -/
def sign (e : SignUrl) (url : String) (opts : SignOptions)
    (r : String) (now : Nat) : Except UrlError String :=
  match e.hash (urlWithAttrs e.ttl url opts r now) with
  | .error err => .error err
  | .ok sg => .ok (urlWithAttrs e.ttl url opts r now ++ "&sig=" ++ sg)

/-! ### `extractUrlData` -/

/-- The parsed signature data of `extractUrlData` (the `signatureData`
field, including the parsed signature). -/
structure ParsedSignatureData where
  expires : Option Int
  ipAddress : String
  method : String
  r : String
  signature : String
deriving DecidableEq

/-- The result of `extractUrlData`. -/
structure SignedURLData where
  urlWithoutSignature : String
  signatureData : ParsedSignatureData
deriving DecidableEq

/-- `extractUrlData(url)` (lines 229–248): query-parameter lookups with
`|| ""` (and `parseInt(… || "0")` for `expires`, `none` modelling `NaN`),
and the global regex removal of `&sig=…` for `urlWithoutSignature`. -/
def extractUrlData (url : String) : SignedURLData :=
  { urlWithoutSignature := String.mk (stripSig url.data)
    signatureData :=
      { expires := jsParseInt (match getParam url "expires".data with
          | none => "0"
          | some v => if v == "" then "0" else v)
        ipAddress := (getParam url "ip".data).getD ""
        method := (getParam url "method".data).getD ""
        r := (getParam url "r".data).getD ""
        signature := (getParam url "sig".data).getD "" } }

/-! ### `verify` -/

/-- The IP check of `verify` (line 269):
`ipAddress && (!options.ipAddress || ipAddress !== options.ipAddress)`. -/
def ipGuard (sigIp ctxIp : String) : Bool :=
  !(sigIp == "") && ((ctxIp == "") || !(sigIp == ctxIp))

/-- The parenthesised subexpression
`(!options.method || method.indexOf(options.method.toUpperCase()))` of
line 271, with its JS value: the boolean `true` when the context method is
falsy (short-circuit), otherwise the number returned by `indexOf`. -/
def jsOrIndexVal (sigMethod ctxMethod : String) : Bool ⊕ Int :=
  if ctxMethod == "" then Sum.inl true
  else Sum.inr (jsIndexOf sigMethod (jsToUpper ctxMethod))

/-- JS strict equality of that value with `-1`: a boolean is never
strictly equal to a number. -/
def strictEqNegOne : Bool ⊕ Int → Bool
  | Sum.inl _ => false
  | Sum.inr n => n == -1

/-- The method check of `verify` (line 271), with the source's grouping:
`method && (!options.method || method.indexOf(...)) === -1`. -/
def methodGuard (sigMethod ctxMethod : String) : Bool :=
  !(sigMethod == "") && strictEqNegOne (jsOrIndexVal sigMethod ctxMethod)

/-- The expiry check of `verify` (line 273): `expires && expires < now`
(`NaN` is falsy). -/
def expiresGuard (exp : Option Int) (now : Nat) : Bool :=
  match exp with
  | none => false
  | some v => !(v == 0) && decide (v < (now : Int))

/-- The body of `verify` after `extractUrlData` (lines 269–277): the four
checks in their fixed order — IP binding, method allow, expiry, digest
comparison (`isValidURLSignature`, line 256). -/
def verifyWith (e : SignUrl) (d : SignedURLData) (ctx : VerifyOptions)
    (now : Nat) : Except UrlError Bool :=
  if ipGuard d.signatureData.ipAddress ctx.ipAddress then .error .blackholed
  else if methodGuard d.signatureData.method ctx.method then .error .blackholed
  else if expiresGuard d.signatureData.expires now then .error .expired
  else
    match e.hash d.urlWithoutSignature with
    | .error err => .error err
    | .ok h => if d.signatureData.signature == h then .ok true else .error .mismatch

/-- `verify(url, options)` (lines 266–278), with the clock `now` as an
explicit input. -/
def verify (e : SignUrl) (url : String) (ctx : VerifyOptions)
    (now : Nat) : Except UrlError Bool :=
  verifyWith e (extractUrlData url) ctx now

/-! ### Auxiliary concrete instances for witnesses and counterexamples -/

/-- A trivial HMAC primitive instance (for concrete evaluations; the
theorems are parametric in the primitive). -/
def trivPrim : HmacPrim := fun _ _ _ => []

/-- A one-byte HMAC primitive instance (digest `"ab"` in hex). -/
def bytePrim : HmacPrim := fun _ _ _ => [171]

/-- A concrete engine with a constant custom hash function, ttl 0. -/
def constHashEngine : SignUrl :=
  mkSignUrl [] trivPrim ⟨some "k", some 0, some (.fn (fun _ => "abcd"))⟩

/-- Characters that none of the claims' inputs may contain for the query
round trip to be exact: the parameter separator `&`, the fragment marker
`#`, and the two form-encoding escapes `%` and `+`; also restricted to
printable ASCII (so that the WHATWG parser neither strips nor re-encodes
them and `toUpperCase` agrees with the ASCII model). -/
def plainChar (c : Char) : Bool :=
  32 ≤ c.toNat && c.toNat < 127 && !(c = '&') && !(c = '#') && !(c = '%') && !(c = '+')

/-- All characters of a string are plain. -/
def plainStr (s : String) : Prop :=
  ∀ c ∈ s.data, plainChar c = true

instance (s : String) : Decidable (plainStr s) := by
  unfold plainStr; infer_instance

/-- Modelled from the spec: the expiry-resolution rule exactly as claim C8
words it, reading "if `options.ttl` is given" / "if `options.expires` is
given" as presence of the field (rather than JS truthiness, which also
excludes 0). -/
def resolveExpiresClaim (engTtl : Nat) (opts : SignOptions) (now : Nat) : Option Nat :=
  if engTtl ≠ 0 then some (now + engTtl * 60000)
  else
    match opts.ttl with
    | some t => some (now + t * 60000)
    | none =>
      match opts.expires with
      | some e => some e
      | none => none

/-- Character list of the serialized `expires=` attribute name. -/
def expiresKey : List Char := ['e', 'x', 'p', 'i', 'r', 'e', 's', '=']

/-- Character list of the serialized `ip=` attribute name. -/
def ipKey : List Char := ['i', 'p', '=']

/-- Character list of the serialized `method=` attribute name. -/
def methodKey : List Char := ['m', 'e', 't', 'h', 'o', 'd', '=']

/-- Character list of the serialized `r=` attribute name. -/
def rKey : List Char := ['r', '=']

/-- Character list of the serialized `sig=` parameter name. -/
def sigKey : List Char := ['s', 'i', 'g', '=']

/-- The query-string character list of a fully signed URL, chunked by
parameter: `expires=<e>&ip=<i>&method=<m>&r=<rS>&sig=<dgS>`. -/
def attrQuery (eS iS mS rS dgS : List Char) : List Char :=
  (expiresKey ++ eS) ++ '&' :: ((ipKey ++ iS) ++ '&' :: ((methodKey ++ mS) ++
    '&' :: ((rKey ++ rS) ++ '&' :: (sigKey ++ dgS))))

/-! ### Helper lemmas: characters and basic list scans -/

theorem pred_ne {p : Char → Bool} {c c0 : Char} (h : p c = true) (h0 : p c0 = false) :
    ¬(c = c0) := by
  intro hc
  rw [hc, h0] at h
  cases h

theorem length_dropWhile_le (p : Char → Bool) (l : List Char) :
    (l.dropWhile p).length ≤ l.length := by
  induction l with
  | nil => simp [List.dropWhile]
  | cons c t ih =>
    simp only [List.dropWhile]
    cases p c <;> simp <;> omega

theorem toNat_ofNat_small {n : Nat} (h : n < 55296) : (Char.ofNat n).toNat = n := by
  unfold Char.ofNat Char.ofNatAux
  split
  · rfl
  · exact absurd (Or.inl h) (by assumption)

theorem takeWhile_all {p : Char → Bool} {l : List Char} (h : ∀ c ∈ l, p c = true) :
    l.takeWhile p = l := by
  induction l with
  | nil => rfl
  | cons c t ih =>
    simp only [List.takeWhile, h c (by simp)]
    exact congrArg (c :: ·) (ih fun x hx => h x (by simp [hx]))

theorem dropWhile_all {p : Char → Bool} {l : List Char} (h : ∀ c ∈ l, p c = true) :
    l.dropWhile p = [] := by
  induction l with
  | nil => rfl
  | cons c t ih =>
    simp only [List.dropWhile, h c (by simp)]
    exact ih fun x hx => h x (by simp [hx])

theorem truncAtChar_eq_self {stop : Char} {l : List Char} (h : stop ∉ l) :
    truncAtChar stop l = l := by
  induction l with
  | nil => rfl
  | cons c t ih =>
    have hc : ¬(c = stop) := fun hc => h (by simp [hc])
    simp only [truncAtChar, if_neg hc]
    exact congrArg (c :: ·) (ih fun hx => h (by simp [hx]))

theorem afterFirstChar_append {stop : Char} {a : List Char} (b : List Char)
    (h : stop ∉ a) : afterFirstChar stop (a ++ stop :: b) = some b := by
  induction a with
  | nil => simp [afterFirstChar]
  | cons c t ih =>
    have hc : ¬(c = stop) := fun hc => h (by simp [hc])
    simp only [List.cons_append, afterFirstChar, if_neg hc]
    exact ih fun hx => h (by simp [hx])

theorem splitAmp_ne_nil (l : List Char) : splitAmp l ≠ [] := by
  cases l with
  | nil => simp [splitAmp]
  | cons c t =>
    simp only [splitAmp]
    split
    · simp
    · split <;> simp

theorem splitAmp_cons_amp (l : List Char) : splitAmp ('&' :: l) = [] :: splitAmp l := by
  simp [splitAmp]

theorem splitAmp_cons_ne {c : Char} (hc : ¬(c = '&')) {l : List Char} {p : List Char}
    {ps : List (List Char)} (h : splitAmp l = p :: ps) :
    splitAmp (c :: l) = (c :: p) :: ps := by
  simp only [splitAmp, if_neg hc, h]

theorem splitAmp_single {l : List Char} (h : '&' ∉ l) : splitAmp l = [l] := by
  induction l with
  | nil => rfl
  | cons c t ih =>
    have hc : ¬(c = '&') := fun hc => h (by simp [hc])
    have ht := ih fun hx => h (by simp [hx])
    simp only [splitAmp, if_neg hc, ht]

theorem splitAmp_append_noamp {a l : List Char} {p : List Char} {ps : List (List Char)}
    (ha : '&' ∉ a) (h : splitAmp l = p :: ps) :
    splitAmp (a ++ l) = (a ++ p) :: ps := by
  induction a with
  | nil => simpa using h
  | cons c t ih =>
    have hc : ¬(c = '&') := fun hc => ha (by simp [hc])
    have ht := ih fun hx => ha (by simp [hx])
    simpa using splitAmp_cons_ne hc ht

theorem formDecode_cons_ne {c : Char} {t : List Char} (h1 : ¬(c = '+')) (h2 : ¬(c = '%')) :
    formDecode (c :: t) = c :: formDecode t := by
  rw [formDecode.eq_def]
  split
  · simp_all
  · simp_all
  · simp_all
  · rename_i heq
    rw [List.cons.injEq] at heq
    rw [heq.1, heq.2]

theorem formDecode_plain {l : List Char}
    (h : ∀ c ∈ l, ¬(c = '%') ∧ ¬(c = '+')) : formDecode l = l := by
  induction l with
  | nil => rfl
  | cons c t ih =>
    have hc := h c (by simp)
    have ht := ih fun x hx => h x (by simp [hx])
    rw [formDecode_cons_ne hc.2 hc.1, ht]

/-! ### Helper lemmas: the `&sig=` removal -/

theorem noAmpS_of_not_mem {l : List Char} (h : '&' ∉ l) : noAmpS l = true := by
  induction l with
  | nil => rfl
  | cons c t ih =>
    have hc : ¬(c = '&') := fun hc => h (by simp [hc])
    have ht := ih fun hx => h (by simp [hx])
    cases t with
    | nil => rfl
    | cons d t2 => simp [noAmpS, hc, ht]

theorem noAmpS_tail {c : Char} {t : List Char} (h : noAmpS (c :: t) = true) :
    noAmpS t = true := by
  cases t with
  | nil => rfl
  | cons d t2 =>
    simp only [noAmpS, Bool.and_eq_true] at h
    exact h.2

theorem noAmpS_cons {c : Char} {t : List Char} (h1 : ¬(c = '&' ∧ t.head? = some 's'))
    (h2 : noAmpS t = true) : noAmpS (c :: t) = true := by
  cases t with
  | nil => rfl
  | cons d t2 =>
    simp only [List.head?_cons, Option.some.injEq] at h1
    simp only [noAmpS, Bool.and_eq_true, Bool.not_eq_true']
    refine ⟨?_, h2⟩
    rw [Bool.and_eq_false_iff]
    by_cases hc : c = '&'
    · exact Or.inr (by simpa using fun hd => h1 ⟨hc, hd⟩)
    · exact Or.inl (by simpa using hc)

theorem noAmpS_append {a b : List Char} (ha : '&' ∉ a) (hb : noAmpS b = true) :
    noAmpS (a ++ b) = true := by
  induction a with
  | nil => simpa using hb
  | cons c t ih =>
    have hc : ¬(c = '&') := fun hc => ha (by simp [hc])
    have ht := ih fun hx => ha (by simp [hx])
    exact noAmpS_cons (fun hx => hc hx.1) ht

theorem isSigMatch_false_two {c d : Char} (t : List Char) (h : ¬(c = '&' ∧ d = 's')) :
    isSigMatch (c :: d :: t) = false := by
  by_cases hc : c = '&'
  · have hd : ¬(d = 's') := fun hd => h ⟨hc, hd⟩
    simp [isSigMatch, sigPat, List.isPrefixOf, hc, Ne.symm hd]
  · simp [isSigMatch, sigPat, List.isPrefixOf, Ne.symm hc]

theorem isSigMatch_false_one (c : Char) : isSigMatch [c] = false := by
  simp [isSigMatch, sigPat, List.isPrefixOf]

theorem isSigMatch_true {c0 c1 : Char} (rest : List Char) (h0 : ¬(c0 = '&'))
    (h1 : isWordChar c1 = true) :
    isSigMatch ('&' :: 's' :: 'i' :: 'g' :: '=' :: c0 :: c1 :: rest) = true := by
  simp [isSigMatch, sigPat, List.isPrefixOf, h0, h1]

theorem stripSigAux_fuel : ∀ (N : Nat) (l : List Char), l.length ≤ N →
    ∀ f1 f2, l.length ≤ f1 → l.length ≤ f2 → stripSigAux f1 l = stripSigAux f2 l := by
  intro N
  induction N with
  | zero =>
    intro l hl f1 f2 h1 h2
    have hnil : l = [] := by
      cases l with
      | nil => rfl
      | cons c t => simp at hl
    subst hnil
    cases f1 <;> cases f2 <;> rfl
  | succ N ih =>
    intro l hl f1 f2 h1 h2
    cases l with
    | nil => cases f1 <;> cases f2 <;> rfl
    | cons c t =>
      cases f1 with
      | zero => simp at h1
      | succ g1 =>
        cases f2 with
        | zero => simp at h2
        | succ g2 =>
          show (if isSigMatch (c :: t) then
              stripSigAux g1 ((c :: t).drop (sigMatchLen (c :: t)))
            else c :: stripSigAux g1 t) =
            (if isSigMatch (c :: t) then
              stripSigAux g2 ((c :: t).drop (sigMatchLen (c :: t)))
            else c :: stripSigAux g2 t)
          have hsig : 7 ≤ sigMatchLen (c :: t) := by simp [sigMatchLen]
          by_cases hm : isSigMatch (c :: t) = true
          · rw [if_pos hm, if_pos hm]
            have hdl : ((c :: t).drop (sigMatchLen (c :: t))).length =
                (c :: t).length - sigMatchLen (c :: t) := List.length_drop _ _
            simp only [List.length_cons] at hl h1 h2 hdl
            refine ih _ ?_ _ _ ?_ ?_ <;> (rw [hdl]; omega)
          · rw [if_neg hm, if_neg hm]
            simp only [List.length_cons] at hl h1 h2
            exact congrArg (c :: ·) (ih t (by omega) g1 g2 (by omega) (by omega))

theorem stripSig_nil : stripSig [] = [] := rfl

theorem stripSig_cons (c : Char) (t : List Char) :
    stripSig (c :: t) =
      if isSigMatch (c :: t) then stripSig ((c :: t).drop (sigMatchLen (c :: t)))
      else c :: stripSig t := by
  show (if isSigMatch (c :: t) then
      stripSigAux t.length ((c :: t).drop (sigMatchLen (c :: t)))
    else c :: stripSigAux t.length t) = _
  have hsig : 7 ≤ sigMatchLen (c :: t) := by simp [sigMatchLen]
  have hdl : ((c :: t).drop (sigMatchLen (c :: t))).length =
      (c :: t).length - sigMatchLen (c :: t) := List.length_drop _ _
  by_cases hm : isSigMatch (c :: t) = true
  · rw [if_pos hm, if_pos hm]
    refine stripSigAux_fuel t.length _ ?_ _ _ ?_ ?_
    · simp only [List.length_cons] at hdl ⊢
      omega
    · simp only [List.length_cons] at hdl ⊢
      omega
    · exact Nat.le_refl _
  · rw [if_neg hm, if_neg hm]
    rfl

theorem stripSig_of_noAmpS {l : List Char} (h : noAmpS l = true) : stripSig l = l := by
  induction l with
  | nil => exact stripSig_nil
  | cons c t ih =>
    have hm : isSigMatch (c :: t) = false := by
      cases t with
      | nil => exact isSigMatch_false_one c
      | cons d t2 =>
        refine isSigMatch_false_two t2 fun hx => ?_
        simp [noAmpS, hx.1, hx.2] at h
    rw [stripSig_cons, hm]
    simp only [Bool.false_eq_true, if_false]
    exact congrArg (c :: ·) (ih (noAmpS_tail h))

theorem stripSig_append_sig {a d : List Char} (ha : noAmpS a = true)
    (hlen : 2 ≤ d.length) (hw : ∀ c ∈ d, isWordChar c = true) :
    stripSig (a ++ '&' :: 's' :: 'i' :: 'g' :: '=' :: d) = a := by
  induction a with
  | nil =>
    match d, hlen with
    | c0 :: c1 :: t, _ =>
      have h0 : ¬(c0 = '&') := pred_ne (hw c0 (by simp)) (by decide)
      have h1 : isWordChar c1 = true := hw c1 (by simp)
      have l0 := isSigMatch_true t h0 h1
      rw [List.nil_append, stripSig_cons]
      rw [show ('&' :: 's' :: 'i' :: 'g' :: '=' :: c0 :: c1 :: t : List Char) =
        '&' :: ('s' :: 'i' :: 'g' :: '=' :: c0 :: c1 :: t) from rfl] at l0
      rw [l0]
      simp only [if_true]
      have hdrop : (('&' :: 's' :: 'i' :: 'g' :: '=' :: c0 :: c1 :: t : List Char)).drop 7 = t := rfl
      have htw : t.takeWhile isWordChar = t :=
        takeWhile_all fun x hx => hw x (by simp [hx])
      have hlen7 : sigMatchLen ('&' :: 's' :: 'i' :: 'g' :: '=' :: c0 :: c1 :: t) =
          ('&' :: 's' :: 'i' :: 'g' :: '=' :: c0 :: c1 :: t : List Char).length := by
        simp [sigMatchLen, hdrop, htw]
        omega
      rw [hlen7, List.drop_length]
      exact stripSig_nil
  | cons x a' ih =>
    have hm : isSigMatch (x :: (a' ++ '&' :: 's' :: 'i' :: 'g' :: '=' :: d)) = false := by
      cases a' with
      | nil => exact isSigMatch_false_two _ (by simp)
      | cons y a'' =>
        refine isSigMatch_false_two _ fun hx => ?_
        simp [noAmpS, hx.1, hx.2] at ha
    rw [List.cons_append, stripSig_cons, hm]
    simp only [Bool.false_eq_true, if_false]
    exact congrArg (x :: ·) (ih (noAmpS_tail ha))

/-! ### Helper lemmas: decimal printing and `parseInt` -/

theorem not_mem_of_all {p : Char → Bool} {l : List Char} (h : ∀ c ∈ l, p c = true)
    {c0 : Char} (h0 : p c0 = false) : c0 ∉ l := by
  intro hm
  rw [h c0 hm] at h0
  cases h0

theorem digitChar_isDigit {k : Nat} (h : k < 10) :
    (Char.ofNat (48 + k)).isDigit = true := by
  interval_cases k <;> decide

theorem natToDecAux_digits : ∀ (fuel n : Nat), ∀ c ∈ natToDecAux fuel n, c.isDigit = true := by
  intro fuel
  induction fuel with
  | zero =>
    intro n c hc
    simp only [natToDecAux, List.mem_singleton] at hc
    rw [hc]
    exact digitChar_isDigit (Nat.mod_lt _ (by omega))
  | succ fuel ih =>
    intro n c hc
    simp only [natToDecAux] at hc
    split at hc
    · rename_i h
      simp only [List.mem_singleton] at hc
      rw [hc]
      exact digitChar_isDigit h
    · rw [List.mem_append] at hc
      rcases hc with hc | hc
      · exact ih (n / 10) c hc
      · simp only [List.mem_singleton] at hc
        rw [hc]
        exact digitChar_isDigit (Nat.mod_lt _ (by omega))

theorem natToDec_all_digits (n : Nat) : ∀ c ∈ natToDec n, c.isDigit = true :=
  natToDecAux_digits n n

theorem natToDec_ne_nil (n : Nat) : natToDec n ≠ [] := by
  unfold natToDec
  cases n with
  | zero => simp [natToDecAux]
  | succ m =>
    simp only [natToDecAux]
    split <;> simp

theorem natToDecAux_foldl : ∀ (fuel n : Nat), n ≤ fuel →
    (natToDecAux fuel n).foldl (fun a c => 10 * a + (c.toNat - 48)) 0 = n := by
  intro fuel
  induction fuel with
  | zero =>
    intro n hn
    have : n = 0 := by omega
    subst this
    simp only [natToDecAux, List.foldl_cons, List.foldl_nil]
    rw [toNat_ofNat_small (by omega)]
  | succ fuel ih =>
    intro n hn
    simp only [natToDecAux]
    split
    · rename_i h
      simp only [List.foldl_cons, List.foldl_nil]
      rw [toNat_ofNat_small (by omega)]
      omega
    · rename_i h
      rw [List.foldl_append]
      simp only [List.foldl_cons, List.foldl_nil]
      have hdiv : n / 10 < n := Nat.div_lt_self (by omega) (by omega)
      rw [ih (n / 10) (by omega)]
      rw [toNat_ofNat_small (by omega)]
      omega

theorem natToDec_foldl (n : Nat) :
    (natToDec n).foldl (fun a c => 10 * a + (c.toNat - 48)) 0 = n :=
  natToDecAux_foldl n n (Nat.le_refl n)

theorem jsParseInt_natToDec (n : Nat) :
    jsParseInt (String.mk (natToDec n)) = some (n : Int) := by
  have hdig := natToDec_all_digits n
  have hcons : ∃ c t, natToDec n = c :: t := by
    cases h : natToDec n with
    | nil => exact absurd h (natToDec_ne_nil n)
    | cons c t => exact ⟨c, t, rfl⟩
  obtain ⟨c, t, hct⟩ := hcons
  have hc : c.isDigit = true := hdig c (by rw [hct]; simp)
  have hdec : decDigitsVal (natToDec n) = some n := by
    unfold decDigitsVal
    rw [takeWhile_all hdig, hct]
    show some (List.foldl (fun a c => 10 * a + (c.toNat - 48)) 0 (c :: t)) = some n
    rw [← hct, natToDec_foldl n]
  have hcore : jsParseIntCore (natToDec n) = some n := by
    rw [hct]
    cases t with
    | nil =>
      show decDigitsVal [c] = some n
      rw [← hct]
      exact hdec
    | cons c1 t' =>
      have hc1 : c1.isDigit = true := hdig c1 (by rw [hct]; simp)
      have hx : ¬(c1 = 'x') := pred_ne hc1 (by decide)
      have hX : ¬(c1 = 'X') := pred_ne hc1 (by decide)
      show (if (decide (c = '0') && (decide (c1 = 'x') || decide (c1 = 'X'))) = true
        then hexDigitsVal t' else decDigitsVal (c :: c1 :: t')) = some n
      rw [if_neg (by simp [hx, hX])]
      rw [← hct]
      exact hdec
  show jsParseInt (String.mk (natToDec n)) = some (n : Int)
  unfold jsParseInt
  have hdw : (String.mk (natToDec n)).data.dropWhile isJsSpace = natToDec n := by
    show (natToDec n).dropWhile isJsSpace = natToDec n
    rw [hct]
    have : isJsSpace c = false := by
      have h1 : ¬(c = ' ') := pred_ne hc (by decide)
      have h2 : ¬(c = '\t') := pred_ne hc (by decide)
      have h3 : ¬(c = '\n') := pred_ne hc (by decide)
      have h4 : ¬(c = '\r') := pred_ne hc (by decide)
      simp [isJsSpace, h1, h2, h3, h4]
    rw [List.dropWhile_cons, this]
    simp
  rw [hdw, hct]
  have hminus : ¬(c = '-') := pred_ne hc (by decide)
  have hplus : ¬(c = '+') := pred_ne hc (by decide)
  simp only [hminus, hplus, if_false]
  rw [← hct, hcore]
  rfl

/-! ### Helper lemmas: the serialized attribute query -/

theorem resolveExpires_pos {engTtl : Nat} {opts : SignOptions} {now : Nat} {E : Nat}
    (h : resolveExpires engTtl opts now = some E) : 0 < E := by
  unfold resolveExpires at h
  split at h
  · rename_i ht
    simp only [Option.some.injEq] at h
    simp only [bne_iff_ne, ne_eq, Bool.not_eq_true', beq_eq_false_iff_ne] at ht
    omega
  · split at h
    · rename_i ht
      cases hty : opts.ttl with
      | none => rw [hty] at ht; cases ht
      | some t =>
        rw [hty] at ht
        simp only [optTruthy, Bool.not_eq_true', beq_eq_false_iff_ne] at ht
        simp only [Option.some.injEq] at h
        rw [hty] at h
        simp only [Option.getD_some] at h
        omega
    · split at h
      · rename_i he
        cases hey : opts.expires with
        | none => rw [hey] at he; cases he
        | some v =>
          rw [hey] at he
          simp only [optTruthy, Bool.not_eq_true', beq_eq_false_iff_ne] at he
          simp only [Option.some.injEq] at h
          rw [hey] at h
          simp only [Option.getD_some] at h
          omega
      · cases h

theorem expiresStr_digits (engTtl : Nat) (opts : SignOptions) (now : Nat) :
    ∀ c ∈ (expiresStr engTtl opts now).data, c.isDigit = true := by
  unfold expiresStr
  cases h : resolveExpires engTtl opts now with
  | none => simp
  | some E =>
    have hE : ¬(E = 0) := by
      have := resolveExpires_pos h
      omega
    show ∀ c ∈ (if E = 0 then "" else String.mk (natToDec E)).data, c.isDigit = true
    rw [if_neg hE]
    exact natToDec_all_digits E

theorem urlWithAttrs_data (engTtl : Nat) (url : String) (opts : SignOptions)
    (r : String) (now : Nat) (h : '?' ∉ url.data) :
    (urlWithAttrs engTtl url opts r now).data =
      url.data ++ '?' :: ((expiresKey ++ (expiresStr engTtl opts now).data) ++
        '&' :: ((ipKey ++ (resolveIpStr opts).data) ++
        '&' :: ((methodKey ++ (resolveMethodStr opts).data) ++
        '&' :: (rKey ++ r.data)))) := by
  unfold urlWithAttrs
  rw [if_neg h]
  simp [String.data_append, expiresKey, ipKey, methodKey, rKey,
    show ("?" : String).data = ['?'] from rfl,
    show ("expires=" : String).data = ['e', 'x', 'p', 'i', 'r', 'e', 's', '='] from rfl,
    show ("&ip=" : String).data = ['&', 'i', 'p', '='] from rfl,
    show ("&method=" : String).data = ['&', 'm', 'e', 't', 'h', 'o', 'd', '='] from rfl,
    show ("&r=" : String).data = ['&', 'r', '='] from rfl]

theorem signed_data (engTtl : Nat) (url : String) (opts : SignOptions)
    (r : String) (now : Nat) (dg : String) (h : '?' ∉ url.data) :
    (urlWithAttrs engTtl url opts r now ++ "&sig=" ++ dg).data =
      url.data ++ '?' :: attrQuery (expiresStr engTtl opts now).data
        (resolveIpStr opts).data (resolveMethodStr opts).data r.data dg.data := by
  rw [String.data_append, String.data_append, urlWithAttrs_data _ _ _ _ _ h]
  simp [attrQuery, show ("&sig=" : String).data = ['&', 's', 'i', 'g', '='] from rfl, sigKey]

theorem not_mem_attrQuery {c0 : Char} {eS iS mS rS dgS : List Char} (hc : ¬(c0 = '&'))
    (hk : c0 ∉ expiresKey ∧ c0 ∉ ipKey ∧ c0 ∉ methodKey ∧ c0 ∉ rKey ∧ c0 ∉ sigKey)
    (h1 : c0 ∉ eS) (h2 : c0 ∉ iS) (h3 : c0 ∉ mS) (h4 : c0 ∉ rS) (h5 : c0 ∉ dgS) :
    c0 ∉ attrQuery eS iS mS rS dgS := by
  obtain ⟨hek, hik, hmk, hrk, hsk⟩ := hk
  simp only [attrQuery, List.mem_append, List.mem_cons, not_or]
  exact ⟨⟨hek, h1⟩, hc, ⟨hik, h2⟩, hc, ⟨hmk, h3⟩, hc, ⟨hrk, h4⟩, hc, hsk, h5⟩

theorem queryOf_signed (engTtl : Nat) (url : String) (opts : SignOptions)
    (r : String) (now : Nat) (dg : String) (hq : '?' ∉ url.data) (hh : '#' ∉ url.data)
    (h1 : '#' ∉ (expiresStr engTtl opts now).data) (h2 : '#' ∉ (resolveIpStr opts).data)
    (h3 : '#' ∉ (resolveMethodStr opts).data) (h4 : '#' ∉ r.data) (h5 : '#' ∉ dg.data) :
    queryOf (urlWithAttrs engTtl url opts r now ++ "&sig=" ++ dg) =
      attrQuery (expiresStr engTtl opts now).data (resolveIpStr opts).data
        (resolveMethodStr opts).data r.data dg.data := by
  unfold queryOf
  rw [signed_data _ _ _ _ _ _ hq]
  have hfull : '#' ∉ url.data ++ '?' :: attrQuery (expiresStr engTtl opts now).data
      (resolveIpStr opts).data (resolveMethodStr opts).data r.data dg.data := by
    simp only [List.mem_append, List.mem_cons, not_or]
    exact ⟨hh, by decide,
      not_mem_attrQuery (by decide) (by refine ⟨?_, ?_, ?_, ?_, ?_⟩ <;> decide) h1 h2 h3 h4 h5⟩
  rw [truncAtChar_eq_self hfull, afterFirstChar_append _ hq]
  rfl

theorem splitAmp_attrQuery {eS iS mS rS dgS : List Char} (h1 : '&' ∉ eS) (h2 : '&' ∉ iS)
    (h3 : '&' ∉ mS) (h4 : '&' ∉ rS) (h5 : '&' ∉ dgS) :
    splitAmp (attrQuery eS iS mS rS dgS) =
      [expiresKey ++ eS, ipKey ++ iS, methodKey ++ mS, rKey ++ rS, sigKey ++ dgS] := by
  have na : ∀ (k v : List Char), '&' ∉ k → '&' ∉ v → '&' ∉ k ++ v := by
    intro k v hk hv
    simp only [List.mem_append, not_or]
    exact ⟨hk, hv⟩
  have a5 : splitAmp (sigKey ++ dgS) = [sigKey ++ dgS] :=
    splitAmp_single (na sigKey dgS (by decide) h5)
  have a4 : splitAmp ((rKey ++ rS) ++ '&' :: (sigKey ++ dgS)) =
      (rKey ++ rS) :: [sigKey ++ dgS] := by
    have hstep := splitAmp_cons_amp (sigKey ++ dgS)
    rw [a5] at hstep
    have := splitAmp_append_noamp (na rKey rS (by decide) h4) hstep
    simpa using this
  have a3 : splitAmp ((methodKey ++ mS) ++ '&' :: ((rKey ++ rS) ++ '&' :: (sigKey ++ dgS))) =
      (methodKey ++ mS) :: (rKey ++ rS) :: [sigKey ++ dgS] := by
    have hstep := splitAmp_cons_amp ((rKey ++ rS) ++ '&' :: (sigKey ++ dgS))
    rw [a4] at hstep
    have := splitAmp_append_noamp (na methodKey mS (by decide) h3) hstep
    simpa using this
  have a2 : splitAmp ((ipKey ++ iS) ++ '&' :: ((methodKey ++ mS) ++ '&' :: ((rKey ++ rS) ++
      '&' :: (sigKey ++ dgS)))) =
      (ipKey ++ iS) :: (methodKey ++ mS) :: (rKey ++ rS) :: [sigKey ++ dgS] := by
    have hstep := splitAmp_cons_amp ((methodKey ++ mS) ++ '&' :: ((rKey ++ rS) ++
      '&' :: (sigKey ++ dgS)))
    rw [a3] at hstep
    have := splitAmp_append_noamp (na ipKey iS (by decide) h2) hstep
    simpa using this
  have hstep := splitAmp_cons_amp ((ipKey ++ iS) ++ '&' :: ((methodKey ++ mS) ++
    '&' :: ((rKey ++ rS) ++ '&' :: (sigKey ++ dgS))))
  rw [a2] at hstep
  have := splitAmp_append_noamp (na expiresKey eS (by decide) h1) hstep
  simpa [attrQuery] using this

theorem pieces_attrQuery {eS iS mS rS dgS : List Char} (h1 : '&' ∉ eS) (h2 : '&' ∉ iS)
    (h3 : '&' ∉ mS) (h4 : '&' ∉ rS) (h5 : '&' ∉ dgS) :
    (splitAmp (attrQuery eS iS mS rS dgS)).filter (fun p => !p.isEmpty) =
      [expiresKey ++ eS, ipKey ++ iS, methodKey ++ mS, rKey ++ rS, sigKey ++ dgS] := by
  rw [splitAmp_attrQuery h1 h2 h3 h4 h5]
  simp [expiresKey, ipKey, methodKey, rKey, sigKey, List.filter]

theorem pieceName_expires (x : List Char) :
    pieceName (expiresKey ++ x) = ['e', 'x', 'p', 'i', 'r', 'e', 's'] := by
  unfold pieceName expiresKey
  rw [show truncAtChar '=' (['e', 'x', 'p', 'i', 'r', 'e', 's', '='] ++ x) =
    ['e', 'x', 'p', 'i', 'r', 'e', 's'] from by simp [truncAtChar]]
  exact formDecode_plain (by decide)

theorem pieceName_ip (x : List Char) : pieceName (ipKey ++ x) = ['i', 'p'] := by
  unfold pieceName ipKey
  rw [show truncAtChar '=' (['i', 'p', '='] ++ x) = ['i', 'p'] from by simp [truncAtChar]]
  exact formDecode_plain (by decide)

theorem pieceName_method (x : List Char) :
    pieceName (methodKey ++ x) = ['m', 'e', 't', 'h', 'o', 'd'] := by
  unfold pieceName methodKey
  rw [show truncAtChar '=' (['m', 'e', 't', 'h', 'o', 'd', '='] ++ x) =
    ['m', 'e', 't', 'h', 'o', 'd'] from by simp [truncAtChar]]
  exact formDecode_plain (by decide)

theorem pieceName_r (x : List Char) : pieceName (rKey ++ x) = ['r'] := by
  unfold pieceName rKey
  rw [show truncAtChar '=' (['r', '='] ++ x) = ['r'] from by simp [truncAtChar]]
  exact formDecode_plain (by decide)

theorem pieceName_sig (x : List Char) : pieceName (sigKey ++ x) = ['s', 'i', 'g'] := by
  unfold pieceName sigKey
  rw [show truncAtChar '=' (['s', 'i', 'g', '='] ++ x) = ['s', 'i', 'g'] from by
    simp [truncAtChar]]
  exact formDecode_plain (by decide)

theorem pieceVal_expires {x : List Char} (hx : ∀ c ∈ x, ¬(c = '%') ∧ ¬(c = '+')) :
    pieceVal (expiresKey ++ x) = x := by
  unfold pieceVal expiresKey
  rw [show afterFirstChar '=' (['e', 'x', 'p', 'i', 'r', 'e', 's', '='] ++ x) = some x from by
    simp [afterFirstChar]]
  exact formDecode_plain hx

theorem pieceVal_ip {x : List Char} (hx : ∀ c ∈ x, ¬(c = '%') ∧ ¬(c = '+')) :
    pieceVal (ipKey ++ x) = x := by
  unfold pieceVal ipKey
  rw [show afterFirstChar '=' (['i', 'p', '='] ++ x) = some x from by simp [afterFirstChar]]
  exact formDecode_plain hx

theorem pieceVal_method {x : List Char} (hx : ∀ c ∈ x, ¬(c = '%') ∧ ¬(c = '+')) :
    pieceVal (methodKey ++ x) = x := by
  unfold pieceVal methodKey
  rw [show afterFirstChar '=' (['m', 'e', 't', 'h', 'o', 'd', '='] ++ x) = some x from by
    simp [afterFirstChar]]
  exact formDecode_plain hx

theorem pieceVal_r {x : List Char} (hx : ∀ c ∈ x, ¬(c = '%') ∧ ¬(c = '+')) :
    pieceVal (rKey ++ x) = x := by
  unfold pieceVal rKey
  rw [show afterFirstChar '=' (['r', '='] ++ x) = some x from by simp [afterFirstChar]]
  exact formDecode_plain hx

theorem pieceVal_sig {x : List Char} (hx : ∀ c ∈ x, ¬(c = '%') ∧ ¬(c = '+')) :
    pieceVal (sigKey ++ x) = x := by
  unfold pieceVal sigKey
  rw [show afterFirstChar '=' (['s', 'i', 'g', '='] ++ x) = some x from by
    simp [afterFirstChar]]
  exact formDecode_plain hx

theorem plain_facts {s : String} (h : plainStr s) :
    '&' ∉ s.data ∧ '#' ∉ s.data ∧ (∀ c ∈ s.data, ¬(c = '%') ∧ ¬(c = '+')) :=
  ⟨not_mem_of_all h (by decide), not_mem_of_all h (by decide),
   fun c hc => ⟨pred_ne (h c hc) (by decide), pred_ne (h c hc) (by decide)⟩⟩

theorem digit_facts {l : List Char} (h : ∀ c ∈ l, c.isDigit = true) :
    '&' ∉ l ∧ '#' ∉ l ∧ (∀ c ∈ l, ¬(c = '%') ∧ ¬(c = '+')) :=
  ⟨not_mem_of_all h (by decide), not_mem_of_all h (by decide),
   fun c hc => ⟨pred_ne (h c hc) (by decide), pred_ne (h c hc) (by decide)⟩⟩

theorem word_facts {l : List Char} (h : ∀ c ∈ l, isWordChar c = true) :
    '&' ∉ l ∧ '#' ∉ l ∧ (∀ c ∈ l, ¬(c = '%') ∧ ¬(c = '+')) :=
  ⟨not_mem_of_all h (by decide), not_mem_of_all h (by decide),
   fun c hc => ⟨pred_ne (h c hc) (by decide), pred_ne (h c hc) (by decide)⟩⟩

theorem getParam_signed (engTtl : Nat) (url : String) (opts : SignOptions)
    (r : String) (now : Nat) (dg : String)
    (huq : '?' ∉ url.data) (huh : '#' ∉ url.data) (hr : plainStr r)
    (hip : plainStr (resolveIpStr opts)) (hm : plainStr (resolveMethodStr opts))
    (hw : ∀ c ∈ dg.data, isWordChar c = true) :
    getParam (urlWithAttrs engTtl url opts r now ++ "&sig=" ++ dg) ("expires".data) =
        some (expiresStr engTtl opts now) ∧
      getParam (urlWithAttrs engTtl url opts r now ++ "&sig=" ++ dg) ("ip".data) =
        some (resolveIpStr opts) ∧
      getParam (urlWithAttrs engTtl url opts r now ++ "&sig=" ++ dg) ("method".data) =
        some (resolveMethodStr opts) ∧
      getParam (urlWithAttrs engTtl url opts r now ++ "&sig=" ++ dg) ("r".data) =
        some r ∧
      getParam (urlWithAttrs engTtl url opts r now ++ "&sig=" ++ dg) ("sig".data) =
        some dg := by
  obtain ⟨hea, heh, hep⟩ := digit_facts (expiresStr_digits engTtl opts now)
  obtain ⟨hia, hih, hipp⟩ := plain_facts hip
  obtain ⟨hma, hmh, hmp⟩ := plain_facts hm
  obtain ⟨hra, hrh, hrp⟩ := plain_facts hr
  obtain ⟨hda, hdh, hdp⟩ := word_facts hw
  have hquery := queryOf_signed engTtl url opts r now dg huq huh heh hih hmh hrh hdh
  have hpieces : (splitAmp (queryOf (urlWithAttrs engTtl url opts r now ++ "&sig=" ++ dg))).filter
      (fun p => !p.isEmpty) =
      [expiresKey ++ (expiresStr engTtl opts now).data, ipKey ++ (resolveIpStr opts).data,
       methodKey ++ (resolveMethodStr opts).data, rKey ++ r.data, sigKey ++ dg.data] := by
    rw [hquery]
    exact pieces_attrQuery hea hia hma hra hda
  refine ⟨?_, ?_, ?_, ?_, ?_⟩
  · unfold getParam
    rw [hpieces]
    rw [List.find?_cons_of_pos _ (by rw [pieceName_expires]; decide)]
    simp only [Option.map_some']
    rw [pieceVal_expires hep]
  · unfold getParam
    rw [hpieces]
    rw [List.find?_cons_of_neg _ (by rw [pieceName_expires]; decide)]
    rw [List.find?_cons_of_pos _ (by rw [pieceName_ip]; decide)]
    simp only [Option.map_some']
    rw [pieceVal_ip hipp]
  · unfold getParam
    rw [hpieces]
    rw [List.find?_cons_of_neg _ (by rw [pieceName_expires]; decide)]
    rw [List.find?_cons_of_neg _ (by rw [pieceName_ip]; decide)]
    rw [List.find?_cons_of_pos _ (by rw [pieceName_method]; decide)]
    simp only [Option.map_some']
    rw [pieceVal_method hmp]
  · unfold getParam
    rw [hpieces]
    rw [List.find?_cons_of_neg _ (by rw [pieceName_expires]; decide)]
    rw [List.find?_cons_of_neg _ (by rw [pieceName_ip]; decide)]
    rw [List.find?_cons_of_neg _ (by rw [pieceName_method]; decide)]
    rw [List.find?_cons_of_pos _ (by rw [pieceName_r]; decide)]
    simp only [Option.map_some']
    rw [pieceVal_r hrp]
  · unfold getParam
    rw [hpieces]
    rw [List.find?_cons_of_neg _ (by rw [pieceName_expires]; decide)]
    rw [List.find?_cons_of_neg _ (by rw [pieceName_ip]; decide)]
    rw [List.find?_cons_of_neg _ (by rw [pieceName_method]; decide)]
    rw [List.find?_cons_of_neg _ (by rw [pieceName_r]; decide)]
    rw [List.find?_cons_of_pos _ (by rw [pieceName_sig]; decide)]
    simp only [Option.map_some']
    rw [pieceVal_sig hdp]

theorem noAmpS_urlWithAttrs (engTtl : Nat) (url : String) (opts : SignOptions)
    (r : String) (now : Nat) (hu : '&' ∉ url.data) (hq : '?' ∉ url.data)
    (hia : '&' ∉ (resolveIpStr opts).data) (hma : '&' ∉ (resolveMethodStr opts).data)
    (hra : '&' ∉ r.data) :
    noAmpS (urlWithAttrs engTtl url opts r now).data = true := by
  obtain ⟨hea, -, -⟩ := digit_facts (expiresStr_digits engTtl opts now)
  rw [urlWithAttrs_data _ _ _ _ _ hq]
  have n1 : noAmpS (rKey ++ r.data) = true :=
    noAmpS_of_not_mem (by simp only [List.mem_append, not_or]; exact ⟨by decide, hra⟩)
  have n2 : noAmpS ('&' :: (rKey ++ r.data)) = true := by
    refine noAmpS_cons ?_ n1
    intro hx
    rw [show (rKey ++ r.data).head? = some 'r' from by simp [rKey]] at hx
    exact absurd hx.2 (by simp)
  have n3 : noAmpS ((methodKey ++ (resolveMethodStr opts).data) ++ '&' :: (rKey ++ r.data)) =
      true :=
    noAmpS_append (by simp only [List.mem_append, not_or]; exact ⟨by decide, hma⟩) n2
  have n4 : noAmpS ('&' :: ((methodKey ++ (resolveMethodStr opts).data) ++
      '&' :: (rKey ++ r.data))) = true := by
    refine noAmpS_cons ?_ n3
    intro hx
    rw [show ((methodKey ++ (resolveMethodStr opts).data) ++
      '&' :: (rKey ++ r.data)).head? = some 'm' from by simp [methodKey]] at hx
    exact absurd hx.2 (by simp)
  have n5 : noAmpS ((ipKey ++ (resolveIpStr opts).data) ++
      '&' :: ((methodKey ++ (resolveMethodStr opts).data) ++ '&' :: (rKey ++ r.data))) = true :=
    noAmpS_append (by simp only [List.mem_append, not_or]; exact ⟨by decide, hia⟩) n4
  have n6 : noAmpS ('&' :: ((ipKey ++ (resolveIpStr opts).data) ++
      '&' :: ((methodKey ++ (resolveMethodStr opts).data) ++ '&' :: (rKey ++ r.data)))) =
      true := by
    refine noAmpS_cons ?_ n5
    intro hx
    rw [show ((ipKey ++ (resolveIpStr opts).data) ++
      '&' :: ((methodKey ++ (resolveMethodStr opts).data) ++
        '&' :: (rKey ++ r.data))).head? = some 'i' from by simp [ipKey]] at hx
    exact absurd hx.2 (by simp)
  have n7 : noAmpS ((expiresKey ++ (expiresStr engTtl opts now).data) ++
      '&' :: ((ipKey ++ (resolveIpStr opts).data) ++
      '&' :: ((methodKey ++ (resolveMethodStr opts).data) ++ '&' :: (rKey ++ r.data)))) =
      true :=
    noAmpS_append (by simp only [List.mem_append, not_or]; exact ⟨by decide, hea⟩) n6
  have n8 : noAmpS ('?' :: ((expiresKey ++ (expiresStr engTtl opts now).data) ++
      '&' :: ((ipKey ++ (resolveIpStr opts).data) ++
      '&' :: ((methodKey ++ (resolveMethodStr opts).data) ++ '&' :: (rKey ++ r.data))))) =
      true := by
    refine noAmpS_cons ?_ n7
    intro hx
    exact absurd hx.1 (by decide)
  exact noAmpS_append hu n8

theorem stripSig_signed (engTtl : Nat) (url : String) (opts : SignOptions)
    (r : String) (now : Nat) (dg : String) (hu : '&' ∉ url.data) (hq : '?' ∉ url.data)
    (hia : '&' ∉ (resolveIpStr opts).data) (hma : '&' ∉ (resolveMethodStr opts).data)
    (hra : '&' ∉ r.data) (hw : ∀ c ∈ dg.data, isWordChar c = true) (hlen : 2 ≤ dg.length) :
    stripSig (urlWithAttrs engTtl url opts r now ++ "&sig=" ++ dg).data =
      (urlWithAttrs engTtl url opts r now).data := by
  have hdata : (urlWithAttrs engTtl url opts r now ++ "&sig=" ++ dg).data =
      (urlWithAttrs engTtl url opts r now).data ++
        '&' :: 's' :: 'i' :: 'g' :: '=' :: dg.data := by
    rw [String.data_append, String.data_append]
    simp [show ("&sig=" : String).data = ['&', 's', 'i', 'g', '='] from rfl]
  rw [hdata]
  exact stripSig_append_sig (noAmpS_urlWithAttrs engTtl url opts r now hu hq hia hma hra)
    hlen hw

theorem extractUrlData_signed (engTtl : Nat) (url : String) (opts : SignOptions)
    (r : String) (now : Nat) (dg : String)
    (hupl : plainStr url) (huq : '?' ∉ url.data) (hr : plainStr r)
    (hip : plainStr (resolveIpStr opts)) (hm : plainStr (resolveMethodStr opts))
    (hw : ∀ c ∈ dg.data, isWordChar c = true) (hlen : 2 ≤ dg.length) :
    extractUrlData (urlWithAttrs engTtl url opts r now ++ "&sig=" ++ dg) =
      ⟨urlWithAttrs engTtl url opts r now,
       ⟨some (((resolveExpires engTtl opts now).getD 0 : Nat) : Int),
        resolveIpStr opts, resolveMethodStr opts, r, dg⟩⟩ := by
  obtain ⟨hua, huh, -⟩ := plain_facts hupl
  obtain ⟨hg1, hg2, hg3, hg4, hg5⟩ :=
    getParam_signed engTtl url opts r now dg huq huh hr hip hm hw
  unfold extractUrlData
  rw [hg1, hg2, hg3, hg4, hg5]
  have hurl : String.mk (stripSig (urlWithAttrs engTtl url opts r now ++ "&sig=" ++ dg).data) =
      urlWithAttrs engTtl url opts r now := by
    rw [stripSig_signed engTtl url opts r now dg hua huq (plain_facts hip).1
      (plain_facts hm).1 (plain_facts hr).1 hw hlen]
  have hexp : jsParseInt (if expiresStr engTtl opts now == "" then "0"
        else expiresStr engTtl opts now) =
      some (((resolveExpires engTtl opts now).getD 0 : Nat) : Int) := by
    unfold expiresStr
    cases hres : resolveExpires engTtl opts now with
    | none =>
      show jsParseInt (if ("" : String) == "" then "0" else "") = some ((0 : Nat) : Int)
      decide
    | some E =>
      have hE : ¬(E = 0) := by
        have := resolveExpires_pos hres
        omega
      show jsParseInt (if (if E = 0 then "" else String.mk (natToDec E)) == "" then "0"
        else if E = 0 then "" else String.mk (natToDec E)) = some (((some E).getD 0 : Nat) : Int)
      rw [if_neg hE]
      have hne : (String.mk (natToDec E) == "") = false := by
        rw [beq_eq_false_iff_ne]
        intro hcontra
        exact natToDec_ne_nil E (by
          have := congrArg String.data hcontra
          simpa using this)
      rw [hne]
      simp only [Bool.false_eq_true, if_false, Option.getD_some]
      exact jsParseInt_natToDec E
  rw [hurl, hexp]
  rfl

/-! ### Helper lemmas: the verify checks -/

theorem ipGuard_false_of {s c : String} (h : s = "" ∨ c = s) : ipGuard s c = false := by
  rcases h with h | h
  · rw [h]
    rfl
  · rw [h]
    unfold ipGuard
    cases hs : (s == "") with
    | true => simp
    | false => simp [hs]

theorem methodGuard_empty_ctx (m : String) : methodGuard m "" = false := by
  unfold methodGuard jsOrIndexVal
  simp [strictEqNegOne]

theorem isPrefixOf_self (l : List Char) : l.isPrefixOf l = true := by
  induction l with
  | nil => rfl
  | cons c t ih => simp [List.isPrefixOf, ih]

theorem jsIndexOf_self (s : String) : jsIndexOf s s = 0 := by
  have hfm : firstMatchPos s.data s.data = some 0 := by
    cases hd : s.data with
    | nil => rfl
    | cons c t =>
      unfold firstMatchPos
      rw [if_pos (isPrefixOf_self (c :: t))]
  unfold jsIndexOf
  rw [hfm]
  rfl

theorem methodGuard_match {m cm : String} (h : jsToUpper cm = m) :
    methodGuard m cm = false := by
  unfold methodGuard
  cases hm : (m == "") with
  | true => simp
  | false =>
    have hcm : (cm == "") = false := by
      rw [beq_eq_false_iff_ne]
      intro hc
      rw [hc] at h
      rw [beq_eq_false_iff_ne] at hm
      exact hm (by rw [← h]; rfl)
    have hv : jsOrIndexVal m cm = Sum.inr (0 : Int) := by
      unfold jsOrIndexVal
      rw [hcm]
      simp only [Bool.false_eq_true, if_false]
      rw [h, jsIndexOf_self]
    rw [hv]
    simp [strictEqNegOne]

theorem expiresGuard_resolved_false {engTtl : Nat} {opts : SignOptions} {now now' : Nat}
    (h : ∀ E, resolveExpires engTtl opts now = some E → now' ≤ E) :
    expiresGuard (some (((resolveExpires engTtl opts now).getD 0 : Nat) : Int)) now' = false := by
  cases hres : resolveExpires engTtl opts now with
  | none =>
    show expiresGuard (some ((0 : Nat) : Int)) now' = false
    simp [expiresGuard]
  | some E =>
    have hle := h E hres
    show (!(((E : Nat) : Int) == 0) && decide (((E : Nat) : Int) < (now' : Nat))) = false
    have : ¬(((E : Nat) : Int) < ((now' : Nat) : Int)) := by
      exact_mod_cast Nat.not_lt.mpr hle
    rw [decide_eq_false this, Bool.and_false]

theorem roundtrip_core (e : SignUrl) (url : String) (opts : SignOptions) (r : String)
    (now now' : Nat) (ctx : VerifyOptions) (dg : String)
    (hupl : plainStr url) (huq : '?' ∉ url.data) (hr : plainStr r)
    (hip : plainStr (resolveIpStr opts)) (hm : plainStr (resolveMethodStr opts))
    (hw : ∀ c ∈ dg.data, isWordChar c = true) (hlen : 2 ≤ dg.length)
    (hdg : e.hash (urlWithAttrs e.ttl url opts r now) = .ok dg)
    (hipG : ipGuard (resolveIpStr opts) ctx.ipAddress = false)
    (hmG : methodGuard (resolveMethodStr opts) ctx.method = false)
    (hexp : ∀ E, resolveExpires e.ttl opts now = some E → now' ≤ E) :
    sign e url opts r now = .ok (urlWithAttrs e.ttl url opts r now ++ "&sig=" ++ dg) ∧
      verify e (urlWithAttrs e.ttl url opts r now ++ "&sig=" ++ dg) ctx now' = .ok true := by
  constructor
  · unfold sign
    rw [hdg]
  · unfold verify
    rw [extractUrlData_signed e.ttl url opts r now dg hupl huq hr hip hm hw hlen]
    unfold verifyWith
    simp only [hipG, hmG, expiresGuard_resolved_false hexp, Bool.false_eq_true, if_false]
    rw [hdg]
    simp

theorem methodGuard_empty_sig (cm : String) : methodGuard "" cm = false := by
  unfold methodGuard
  simp

theorem hexDigitChar_lower {d : Nat} (h : d < 16) :
    isLowerHexChar (hexDigitChar d) = true := by
  interval_cases d <;> decide

theorem bytesToHexLower_lower {bs : List Nat} (h : ∀ b ∈ bs, b < 256) :
    ∀ c ∈ (bytesToHexLower bs).data, isLowerHexChar c = true := by
  induction bs with
  | nil => simp [bytesToHexLower]
  | cons b t ih =>
    intro c hc
    have hb : b < 256 := h b (by simp)
    simp only [bytesToHexLower, List.foldr_cons] at hc
    simp only [List.mem_cons] at hc
    rcases hc with hc | hc | hc
    · rw [hc]
      exact hexDigitChar_lower (by omega)
    · rw [hc]
      exact hexDigitChar_lower (by omega)
    · exact ih (fun x hx => h x (by simp [hx])) c hc

theorem hmacHexDigest_eq (prim : HmacPrim) (alg key data : String) :
    hmacHexDigest prim alg key data =
      bytesToHexLower (prim alg (utf8Bytes key) (utf8Bytes data ++ utf8Bytes key)) := by
  unfold hmacHexDigest NodeHmac.digestHex NodeHmac.update createHmac
  simp

/-! ### Claim theorems -/

/-- Claim C3: verify's checks run in the fixed order IP-binding, method-allow,
expiry, digest; the first failing check determines the error.  In particular a
signed URL that is both expired and IP-mismatched against the context makes
`verify` raise `BlackholedSignatureError`, not `ExpiredSignatureError`. -/
theorem c3_blackholed_before_expired (e : SignUrl) (url : String) (ctx : VerifyOptions)
    (now : Nat)
    (hip : ipGuard (extractUrlData url).signatureData.ipAddress ctx.ipAddress = true)
    (hexp : expiresGuard (extractUrlData url).signatureData.expires now = true) :
    verify e url ctx now = .error .blackholed ∧
      verify e url ctx now ≠ .error .expired := by
  have hmain : verify e url ctx now = .error .blackholed := by
    unfold verify verifyWith
    rw [hip]
    simp
  exact ⟨hmain, by rw [hmain]; intro hcontra; cases hcontra⟩

/-- Witness for C3 at a concrete expired, IP-mismatched signed URL. -/
theorem c3_blackholed_before_expired_witness :
    verify constHashEngine "http://x/p?expires=1&ip=9.9.9.9&method=&r=AA&sig=ab" ⟨"", ""⟩ 5 =
        .error .blackholed ∧
      verify constHashEngine "http://x/p?expires=1&ip=9.9.9.9&method=&r=AA&sig=ab" ⟨"", ""⟩ 5 ≠
        .error .expired :=
  c3_blackholed_before_expired constHashEngine
    "http://x/p?expires=1&ip=9.9.9.9&method=&r=AA&sig=ab" ⟨"", ""⟩ 5 (by decide) (by decide)

/-- Claim C6: on the named-algorithm path, the digest is the HMAC of the
message followed by the key (the key is fed into the message body in addition
to keying the HMAC), rendered as lowercase hexadecimal. -/
theorem c6_digest_derivation (supported : List String) (prim : HmacPrim)
    (key alg data : String) (hk : ¬(key = "")) (ha : isValidAlgorithm supported alg = true)
    (hb : ∀ b ∈ prim alg (utf8Bytes key) (utf8Bytes data ++ utf8Bytes key), b < 256) :
    generateSignature supported prim key alg data =
        .ok (bytesToHexLower (prim alg (utf8Bytes key) (utf8Bytes data ++ utf8Bytes key))) ∧
      ∀ c ∈ (bytesToHexLower (prim alg (utf8Bytes key)
        (utf8Bytes data ++ utf8Bytes key))).data, isLowerHexChar c = true := by
  constructor
  · unfold generateSignature
    rw [beq_eq_false_iff_ne.mpr hk, ha]
    simp only [Bool.not_true, Bool.false_eq_true, if_false]
    rw [hmacHexDigest_eq]
  · exact bytesToHexLower_lower hb

/-- Witness for C6 at a concrete one-byte HMAC primitive. -/
theorem c6_digest_derivation_witness :
    generateSignature ["sha256"] bytePrim "k" "sha256" "d" =
        .ok (bytesToHexLower (bytePrim "sha256" (utf8Bytes "k")
          (utf8Bytes "d" ++ utf8Bytes "k"))) ∧
      ∀ c ∈ (bytesToHexLower (bytePrim "sha256" (utf8Bytes "k")
        (utf8Bytes "d" ++ utf8Bytes "k"))).data, isLowerHexChar c = true :=
  c6_digest_derivation ["sha256"] bytePrim "k" "sha256" "d" (by decide) (by decide)
    (by decide)

/-- Counterexample to claim C8 as stated: with the engine ttl 0 and options
`{ttl: 0, expires: 5}`, `options.ttl` is given, so the claim's reading
resolves the expiry to `now + 0 minutes = now`, but the code treats the
given 0 as falsy and uses `options.expires = 5` instead. -/
theorem c8_counterexample :
    resolveExpires 0 ⟨.absent, some 0, some 5, ""⟩ 100 = some 5 ∧
      resolveExpiresClaim 0 ⟨.absent, some 0, some 5, ""⟩ 100 = some (100 + 0 * 60000) ∧
      resolveExpires 0 ⟨.absent, some 0, some 5, ""⟩ 100 ≠
        resolveExpiresClaim 0 ⟨.absent, some 0, some 5, ""⟩ 100 := by
  decide

/-- Claim C8 (amended): expiry resolution precedence in `sign`, with "given"
read as JS truthiness (given and non-zero): a non-zero engine ttl wins; else a
given non-zero `options.ttl`; else a given non-zero `options.expires`, used
verbatim; else no expiry. -/
theorem c8_expiry_precedence (engTtl : Nat) (opts : SignOptions) (now : Nat) :
    (engTtl ≠ 0 → resolveExpires engTtl opts now = some (now + engTtl * 60000)) ∧
      (engTtl = 0 → optTruthy opts.ttl = true →
        resolveExpires engTtl opts now = some (now + (opts.ttl.getD 0) * 60000)) ∧
      (engTtl = 0 → optTruthy opts.ttl = false → optTruthy opts.expires = true →
        resolveExpires engTtl opts now = opts.expires) ∧
      (engTtl = 0 → optTruthy opts.ttl = false → optTruthy opts.expires = false →
        resolveExpires engTtl opts now = none) := by
  refine ⟨?_, ?_, ?_, ?_⟩
  · intro h
    unfold resolveExpires
    rw [if_pos (by simpa using h)]
  · intro h ht
    unfold resolveExpires
    rw [if_neg (by simp [h]), if_pos ht]
  · intro h ht he
    unfold resolveExpires
    rw [if_neg (by simp [h]), if_neg (by simp [ht]), if_pos he]
    cases hx : opts.expires with
    | none => rw [hx] at he; cases he
    | some v => simp [hx]
  · intro h ht he
    unfold resolveExpires
    rw [if_neg (by simp [h]), if_neg (by simp [ht]), if_neg (by simp [he])]

/-- Witness for C8 exercising the four branches of the amended precedence. -/
theorem c8_expiry_precedence_witness :
    resolveExpires 2 ⟨.absent, some 7, some 9, ""⟩ 100 = some (100 + 2 * 60000) ∧
      resolveExpires 0 ⟨.absent, some 7, some 9, ""⟩ 100 = some (100 + 7 * 60000) ∧
      resolveExpires 0 ⟨.absent, none, some 9, ""⟩ 100 = some 9 ∧
      resolveExpires 0 ⟨.absent, none, none, ""⟩ 100 = none :=
  ⟨(c8_expiry_precedence 2 ⟨.absent, some 7, some 9, ""⟩ 100).1 (by decide),
   by
    have := (c8_expiry_precedence 0 ⟨.absent, some 7, some 9, ""⟩ 100).2.1 rfl (by decide)
    simpa using this,
   by
    have := (c8_expiry_precedence 0 ⟨.absent, none, some 9, ""⟩ 100).2.2.1 rfl (by decide)
      (by decide)
    simpa using this,
   (c8_expiry_precedence 0 ⟨.absent, none, none, ""⟩ 100).2.2.2 rfl (by decide) (by decide)⟩

/-- Counterexample to claim C9 as stated: with an empty key and the
unsupported algorithm "md999", signing raises `NotProvideKeyError`, not
`NotSupportedAlgorithmError`, although the identifier is not among the
supported algorithms (the key check runs first). -/
theorem c9_counterexample :
    isValidAlgorithm ["sha256"] "md999" = false ∧
      sign (mkSignUrl ["sha256"] trivPrim ⟨some "", some 0, some (.alg "md999")⟩)
        "http://x/y" ⟨.absent, none, none, ""⟩ "A" 0 = .error .notProvideKey ∧
      sign (mkSignUrl ["sha256"] trivPrim ⟨some "", some 0, some (.alg "md999")⟩)
        "http://x/y" ⟨.absent, none, none, ""⟩ "A" 0 ≠ .error .notSupportedAlgorithm := by
  refine ⟨by decide, by decide, ?_⟩
  intro h
  rw [show sign (mkSignUrl ["sha256"] trivPrim ⟨some "", some 0, some (.alg "md999")⟩)
    "http://x/y" ⟨.absent, none, none, ""⟩ "A" 0 = .error .notProvideKey from by decide] at h
  cases h

/-- Claim C9 (amended): with a named hash identifier, `sign` never fails on
input shape; it raises `NotProvideKeyError` exactly when the configured key
is empty (this check runs first), raises `NotSupportedAlgorithmError` exactly
when the key is present but the identifier unsupported, and otherwise returns
the signed URL. -/
theorem c9_sign_failure_modes (supported : List String) (prim : HmacPrim)
    (key alg : String) (ttl : Nat) (url : String) (opts : SignOptions)
    (r : String) (now : Nat) :
    sign (mkSignUrl supported prim ⟨some key, some ttl, some (.alg alg)⟩) url opts r now =
      (if key = "" then .error .notProvideKey
       else if isValidAlgorithm supported alg = true then
         .ok (urlWithAttrs ttl url opts r now ++ "&sig=" ++
           hmacHexDigest prim alg key (urlWithAttrs ttl url opts r now))
       else .error .notSupportedAlgorithm) := by
  unfold sign
  show (match generateSignature supported prim key alg (urlWithAttrs ttl url opts r now) with
    | .error err => Except.error err
    | .ok sg => Except.ok (urlWithAttrs ttl url opts r now ++ "&sig=" ++ sg)) = _
  unfold generateSignature
  by_cases hk : key = ""
  · rw [beq_iff_eq.mpr hk]
    simp [hk]
  · rw [beq_eq_false_iff_ne.mpr hk]
    simp only [Bool.false_eq_true, if_false, if_neg hk]
    cases hv : isValidAlgorithm supported alg with
    | true => simp
    | false => simp

/-- Witness for C9 exercising the three outcomes. -/
theorem c9_sign_failure_modes_witness :
    sign (mkSignUrl ["sha256"] bytePrim ⟨some "", some 0, some (.alg "sha256")⟩)
        "http://x/y" ⟨.absent, none, none, ""⟩ "A" 0 = .error .notProvideKey ∧
      sign (mkSignUrl ["sha256"] bytePrim ⟨some "k", some 0, some (.alg "md999")⟩)
        "http://x/y" ⟨.absent, none, none, ""⟩ "A" 0 = .error .notSupportedAlgorithm ∧
      sign (mkSignUrl ["sha256"] bytePrim ⟨some "k", some 0, some (.alg "sha256")⟩)
        "http://x/y" ⟨.absent, none, none, ""⟩ "A" 0 =
        .ok (urlWithAttrs 0 "http://x/y" ⟨.absent, none, none, ""⟩ "A" 0 ++ "&sig=" ++
          hmacHexDigest bytePrim "sha256" "k"
            (urlWithAttrs 0 "http://x/y" ⟨.absent, none, none, ""⟩ "A" 0)) := by
  refine ⟨?_, ?_, ?_⟩
  · have := c9_sign_failure_modes ["sha256"] bytePrim "" "sha256" 0 "http://x/y"
      ⟨.absent, none, none, ""⟩ "A" 0
    simpa using this
  · have := c9_sign_failure_modes ["sha256"] bytePrim "k" "md999" 0 "http://x/y"
      ⟨.absent, none, none, ""⟩ "A" 0
    rw [this]
    rfl
  · have := c9_sign_failure_modes ["sha256"] bytePrim "k" "sha256" 0 "http://x/y"
      ⟨.absent, none, none, ""⟩ "A" 0
    rw [this]
    rfl

/-- Claim C10: the method-allow check is a substring search of the uppercased
context method inside the comma-joined allowed-method string, so a context
method that is not an element of the allowed list but occurs as a substring
of it (allowed `["WIDGET"]`, context `"get"`) passes the check: verify
returns true instead of raising `BlackholedSignatureError`. -/
theorem c10_substring_false_positive :
    jsIndexOf "WIDGET" "GET" = 3 ∧
      "GET" ∉ ["WIDGET"] ∧
      methodGuard "WIDGET" "get" = false ∧
      sign constHashEngine "http://x/y" ⟨.list ["WIDGET"], none, some 5, ""⟩ "AA" 0 =
        .ok "http://x/y?expires=5&ip=&method=WIDGET&r=AA&sig=abcd" ∧
      verify constHashEngine "http://x/y?expires=5&ip=&method=WIDGET&r=AA&sig=abcd"
        ⟨"get", ""⟩ 1 = .ok true := by
  decide

/-- Counterexample to claim C1 as stated: for the URL
`http://x/y?a=b&sig=zz` (which already contains a `sig`-shaped parameter) and
options binding no method and no IP, with the current time 1 before the
resolved expiry 5 and a matching (empty) context, `verify (sign url) context`
raises `MismatchSignatureError` instead of returning true: the global
`&sig=` removal also deletes the pre-existing `&sig=zz`, and the signature
lookup returns the first `sig` parameter `zz` rather than the appended
digest. -/
theorem c1_counterexample :
    sign constHashEngine "http://x/y?a=b&sig=zz" ⟨.absent, none, some 5, ""⟩ "AAAA" 0 =
        .ok "http://x/y?a=b&sig=zz&expires=5&ip=&method=&r=AAAA&sig=abcd" ∧
      verify constHashEngine "http://x/y?a=b&sig=zz&expires=5&ip=&method=&r=AAAA&sig=abcd"
        ⟨"", ""⟩ 1 = .error .mismatch := by
  decide

/-- Claim C1 (amended): the round trip `verify (sign url opts) ctx = true`
holds whenever the base URL contains no `?`, `#`, `&`, `%` or `+` (in
particular no pre-existing query or `sig` parameter), the bound IP, method
and nonce strings are printable ASCII free of `&`, `#`, `%` and `+`, the
digest is at least two word characters (as hex digests are), the context
supplies a method matching the signed method case-insensitively (or no
method was bound) and an IP equal to the bound IP (or no IP was bound), and
the current time is before the resolved expiry. -/
theorem c1_roundtrip (e : SignUrl) (url : String) (opts : SignOptions) (r : String)
    (now now' : Nat) (ctx : VerifyOptions) (dg : String)
    (hupl : plainStr url) (huq : '?' ∉ url.data) (hr : plainStr r)
    (hip : plainStr (resolveIpStr opts)) (hm : plainStr (resolveMethodStr opts))
    (hw : ∀ c ∈ dg.data, isWordChar c = true) (hlen : 2 ≤ dg.length)
    (hdg : e.hash (urlWithAttrs e.ttl url opts r now) = .ok dg)
    (hctxip : resolveIpStr opts = "" ∨ ctx.ipAddress = resolveIpStr opts)
    (hctxm : resolveMethodStr opts = "" ∨ jsToUpper ctx.method = resolveMethodStr opts)
    (hexp : ∀ E, resolveExpires e.ttl opts now = some E → now' < E) :
    sign e url opts r now = .ok (urlWithAttrs e.ttl url opts r now ++ "&sig=" ++ dg) ∧
      verify e (urlWithAttrs e.ttl url opts r now ++ "&sig=" ++ dg) ctx now' = .ok true := by
  have hipG : ipGuard (resolveIpStr opts) ctx.ipAddress = false := ipGuard_false_of hctxip
  have hmG : methodGuard (resolveMethodStr opts) ctx.method = false := by
    rcases hctxm with h | h
    · rw [h]
      exact methodGuard_empty_sig ctx.method
    · exact methodGuard_match h
  exact roundtrip_core e url opts r now now' ctx dg hupl huq hr hip hm hw hlen hdg hipG hmG
    (fun E hE => Nat.le_of_lt (hexp E hE))

/-- Witness for the amended C1 at a concrete engine, URL and options. -/
theorem c1_roundtrip_witness :
    sign constHashEngine "http://x/y" ⟨.str "GET", none, some 5, "1.2.3.4"⟩ "AA" 0 =
        .ok (urlWithAttrs constHashEngine.ttl "http://x/y"
          ⟨.str "GET", none, some 5, "1.2.3.4"⟩ "AA" 0 ++ "&sig=" ++ "abcd") ∧
      verify constHashEngine (urlWithAttrs constHashEngine.ttl "http://x/y"
          ⟨.str "GET", none, some 5, "1.2.3.4"⟩ "AA" 0 ++ "&sig=" ++ "abcd")
        ⟨"get", "1.2.3.4"⟩ 1 = .ok true :=
  c1_roundtrip constHashEngine "http://x/y" ⟨.str "GET", none, some 5, "1.2.3.4"⟩ "AA" 0 1
    ⟨"get", "1.2.3.4"⟩ "abcd" (by decide) (by decide) (by decide) (by decide) (by decide)
    (by decide) (by decide) (by decide) (Or.inr (by decide)) (Or.inr (by decide))
    (by
      intro E hE
      rw [show resolveExpires constHashEngine.ttl ⟨.str "GET", none, some 5, "1.2.3.4"⟩ 0 =
        some 5 from rfl] at hE
      cases hE
      omega)

/-- Counterexample to claim C2 as stated: the signature removal is a global,
unanchored regex, so for the base URL `http://x/y?a=b&sig=zz` the
`urlWithoutSignature` reconstructed from the signed URL also loses the
pre-existing `&sig=zz` and differs byte-for-byte from the string the signer
hashed. -/
theorem c2_counterexample :
    sign constHashEngine "http://x/y?a=b&sig=zz" ⟨.absent, none, some 5, ""⟩ "AAAA" 0 =
        .ok "http://x/y?a=b&sig=zz&expires=5&ip=&method=&r=AAAA&sig=abcd" ∧
      urlWithAttrs 0 "http://x/y?a=b&sig=zz" ⟨.absent, none, some 5, ""⟩ "AAAA" 0 =
        "http://x/y?a=b&sig=zz&expires=5&ip=&method=&r=AAAA" ∧
      (extractUrlData
          "http://x/y?a=b&sig=zz&expires=5&ip=&method=&r=AAAA&sig=abcd").urlWithoutSignature =
        "http://x/y?a=b&expires=5&ip=&method=&r=AAAA" ∧
      (extractUrlData
          "http://x/y?a=b&sig=zz&expires=5&ip=&method=&r=AAAA&sig=abcd").urlWithoutSignature ≠
        urlWithAttrs 0 "http://x/y?a=b&sig=zz" ⟨.absent, none, some 5, ""⟩ "AAAA" 0 := by
  decide

/-- Claim C2 (amended): for base URLs without `?`, `#`, `&`, with plain
ASCII attribute values and a digest of at least two word characters, the
`urlWithoutSignature` that `extractUrlData` reconstructs from
`sign(url, options)` equals, byte for byte, the string over which the signer
computed the digest.  The removal of the signature parameter is however a
global, unanchored deletion of every substring matching `&sig=[^&]\w+`, not
only of a trailing parameter (see the counterexample). -/
theorem c2_reconstruction (e : SignUrl) (url : String) (opts : SignOptions) (r : String)
    (now : Nat) (dg : String)
    (hupl : plainStr url) (huq : '?' ∉ url.data) (hr : plainStr r)
    (hip : plainStr (resolveIpStr opts)) (hm : plainStr (resolveMethodStr opts))
    (hw : ∀ c ∈ dg.data, isWordChar c = true) (hlen : 2 ≤ dg.length)
    (hdg : e.hash (urlWithAttrs e.ttl url opts r now) = .ok dg) :
    sign e url opts r now = .ok (urlWithAttrs e.ttl url opts r now ++ "&sig=" ++ dg) ∧
      (extractUrlData
        (urlWithAttrs e.ttl url opts r now ++ "&sig=" ++ dg)).urlWithoutSignature =
        urlWithAttrs e.ttl url opts r now := by
  constructor
  · unfold sign
    rw [hdg]
  · rw [extractUrlData_signed e.ttl url opts r now dg hupl huq hr hip hm hw hlen]

/-- Witness for the amended C2 at a concrete engine, URL and options. -/
theorem c2_reconstruction_witness :
    sign constHashEngine "http://h/p" ⟨.absent, none, some 7, ""⟩ "BB" 0 =
        .ok (urlWithAttrs constHashEngine.ttl "http://h/p"
          ⟨.absent, none, some 7, ""⟩ "BB" 0 ++ "&sig=" ++ "abcd") ∧
      (extractUrlData (urlWithAttrs constHashEngine.ttl "http://h/p"
          ⟨.absent, none, some 7, ""⟩ "BB" 0 ++ "&sig=" ++ "abcd")).urlWithoutSignature =
        urlWithAttrs constHashEngine.ttl "http://h/p" ⟨.absent, none, some 7, ""⟩ "BB" 0 :=
  c2_reconstruction constHashEngine "http://h/p" ⟨.absent, none, some 7, ""⟩ "BB" 0 "abcd"
    (by decide) (by decide) (by decide) (by decide) (by decide) (by decide) (by decide)
    (by decide)

/-- Claim C4: for a URL signed with method "GET" (unpinned IP, unexpired,
digest intact), verifying with context method "POST" raises
`BlackholedSignatureError`, while verifying with context method "get" (the
context method is upper-cased before the check and the signed method was
upper-cased at sign time) returns true. -/
theorem c4_method_enforcement (e : SignUrl) (url : String) (opts : SignOptions)
    (r : String) (now now' : Nat) (ctxIp : String) (dg : String)
    (hmeth : opts.method = .str "GET") (hipA : opts.ipAddress = "")
    (hupl : plainStr url) (huq : '?' ∉ url.data) (hr : plainStr r)
    (hw : ∀ c ∈ dg.data, isWordChar c = true) (hlen : 2 ≤ dg.length)
    (hdg : e.hash (urlWithAttrs e.ttl url opts r now) = .ok dg)
    (hexp : ∀ E, resolveExpires e.ttl opts now = some E → now' < E) :
    sign e url opts r now = .ok (urlWithAttrs e.ttl url opts r now ++ "&sig=" ++ dg) ∧
      verify e (urlWithAttrs e.ttl url opts r now ++ "&sig=" ++ dg) ⟨"POST", ctxIp⟩ now' =
        .error .blackholed ∧
      verify e (urlWithAttrs e.ttl url opts r now ++ "&sig=" ++ dg) ⟨"get", ctxIp⟩ now' =
        .ok true := by
  have hres : resolveMethodStr opts = "GET" := by
    unfold resolveMethodStr methodTruthy
    rw [hmeth]
    rfl
  have hipr : resolveIpStr opts = "" := hipA
  have hip : plainStr (resolveIpStr opts) := by
    rw [hipr]
    decide
  have hm : plainStr (resolveMethodStr opts) := by
    rw [hres]
    decide
  obtain ⟨hsig, hver⟩ := roundtrip_core e url opts r now now' ⟨"get", ctxIp⟩ dg hupl huq hr
    hip hm hw hlen hdg
    (by rw [hipr]; exact ipGuard_false_of (Or.inl rfl))
    (by rw [hres]; show methodGuard "GET" "get" = false; decide)
    (fun E hE => Nat.le_of_lt (hexp E hE))
  refine ⟨hsig, ?_, hver⟩
  have hipg : ipGuard (resolveIpStr opts) ctxIp = false := by
    rw [hipr]
    exact ipGuard_false_of (Or.inl rfl)
  have hmg : methodGuard (resolveMethodStr opts) "POST" = true := by
    rw [hres]
    decide
  unfold verify
  rw [extractUrlData_signed e.ttl url opts r now dg hupl huq hr hip hm hw hlen]
  unfold verifyWith
  simp [hipg, hmg]

/-- Witness for C4 at a concrete engine, URL and options. -/
theorem c4_method_enforcement_witness :
    sign constHashEngine "http://x/y" ⟨.str "GET", none, some 5, ""⟩ "AA" 0 =
        .ok (urlWithAttrs constHashEngine.ttl "http://x/y"
          ⟨.str "GET", none, some 5, ""⟩ "AA" 0 ++ "&sig=" ++ "abcd") ∧
      verify constHashEngine (urlWithAttrs constHashEngine.ttl "http://x/y"
          ⟨.str "GET", none, some 5, ""⟩ "AA" 0 ++ "&sig=" ++ "abcd") ⟨"POST", ""⟩ 1 =
        .error .blackholed ∧
      verify constHashEngine (urlWithAttrs constHashEngine.ttl "http://x/y"
          ⟨.str "GET", none, some 5, ""⟩ "AA" 0 ++ "&sig=" ++ "abcd") ⟨"get", ""⟩ 1 =
        .ok true :=
  c4_method_enforcement constHashEngine "http://x/y" ⟨.str "GET", none, some 5, ""⟩ "AA" 0 1
    "" "abcd" rfl rfl (by decide) (by decide) (by decide) (by decide) (by decide) (by decide)
    (by
      intro E hE
      rw [show resolveExpires constHashEngine.ttl ⟨.str "GET", none, some 5, ""⟩ 0 =
        some 5 from rfl] at hE
      cases hE
      omega)

/-- Claim C5: because line 271 groups as
`method && ((!options.method || method.indexOf(...)) === -1)`, an absent
context method makes the inner expression the boolean `true`, which is never
strictly equal to `-1`; so for a signed URL carrying a non-empty
allowed-method constraint, a context that omits the method does not raise
`BlackholedSignatureError` from the method check, and verification proceeds
to the expiry and digest checks and can return true. -/
theorem c5_absent_context_method (e : SignUrl) (url : String) (opts : SignOptions)
    (r : String) (now now' : Nat) (ctxIp : String) (dg : String)
    (hMne : resolveMethodStr opts ≠ "")
    (hctxip : resolveIpStr opts = "" ∨ ctxIp = resolveIpStr opts)
    (hupl : plainStr url) (huq : '?' ∉ url.data) (hr : plainStr r)
    (hip : plainStr (resolveIpStr opts)) (hm : plainStr (resolveMethodStr opts))
    (hw : ∀ c ∈ dg.data, isWordChar c = true) (hlen : 2 ≤ dg.length)
    (hdg : e.hash (urlWithAttrs e.ttl url opts r now) = .ok dg)
    (hexp : ∀ E, resolveExpires e.ttl opts now = some E → now' < E) :
    methodGuard (resolveMethodStr opts) "" = false ∧
      sign e url opts r now = .ok (urlWithAttrs e.ttl url opts r now ++ "&sig=" ++ dg) ∧
      verify e (urlWithAttrs e.ttl url opts r now ++ "&sig=" ++ dg) ⟨"", ctxIp⟩ now' =
        .ok true := by
  have h1 := methodGuard_empty_ctx (resolveMethodStr opts)
  obtain ⟨hs, hv⟩ := roundtrip_core e url opts r now now' ⟨"", ctxIp⟩ dg hupl huq hr hip hm
    hw hlen hdg (ipGuard_false_of hctxip) h1 (fun E hE => Nat.le_of_lt (hexp E hE))
  exact ⟨h1, hs, hv⟩

/-- Witness for C5 at a concrete engine, URL and options. -/
theorem c5_absent_context_method_witness :
    methodGuard (resolveMethodStr ⟨.str "GET", none, some 5, ""⟩) "" = false ∧
      sign constHashEngine "http://x/y" ⟨.str "GET", none, some 5, ""⟩ "AB" 0 =
        .ok (urlWithAttrs constHashEngine.ttl "http://x/y"
          ⟨.str "GET", none, some 5, ""⟩ "AB" 0 ++ "&sig=" ++ "abcd") ∧
      verify constHashEngine (urlWithAttrs constHashEngine.ttl "http://x/y"
          ⟨.str "GET", none, some 5, ""⟩ "AB" 0 ++ "&sig=" ++ "abcd") ⟨"", ""⟩ 1 =
        .ok true :=
  c5_absent_context_method constHashEngine "http://x/y" ⟨.str "GET", none, some 5, ""⟩ "AB"
    0 1 "" "abcd" (by decide) (Or.inl (by decide)) (by decide) (by decide) (by decide)
    (by decide) (by decide) (by decide) (by decide) (by decide)
    (by
      intro E hE
      rw [show resolveExpires constHashEngine.ttl ⟨.str "GET", none, some 5, ""⟩ 0 =
        some 5 from rfl] at hE
      cases hE
      omega)

/-- Claim C7: serialization and wire format — `sign` appends the attributes
in the fixed order `expires, ip, method, r` (empty string for any absent
attribute), uses `?` when the URL has no query string yet and `&` otherwise,
and appends `&sig=<digest>` last; concretely, with key "abc" and ttl 0,
signing `http://x/y` with method GET and expires 1700000000000 yields
`http://x/y?expires=1700000000000&ip=&method=GET&r=<nonce>&sig=<digest>`. -/
theorem c7_wire_format (supported : List String) (prim : HmacPrim) (r : String) (now : Nat)
    (ha : isValidAlgorithm supported "sha256" = true) :
    sign (mkSignUrl supported prim ⟨some "abc", some 0, none⟩) "http://x/y"
        ⟨.str "GET", none, some 1700000000000, ""⟩ r now =
      .ok ("http://x/y?expires=1700000000000&ip=&method=GET&r=" ++ r ++ "&sig=" ++
        hmacHexDigest prim "sha256" "abc"
          ("http://x/y?expires=1700000000000&ip=&method=GET&r=" ++ r)) ∧
    sign (mkSignUrl supported prim ⟨some "abc", some 0, none⟩) "http://x/y?a=b"
        ⟨.str "GET", none, some 1700000000000, ""⟩ r now =
      .ok ("http://x/y?a=b&expires=1700000000000&ip=&method=GET&r=" ++ r ++ "&sig=" ++
        hmacHexDigest prim "sha256" "abc"
          ("http://x/y?a=b&expires=1700000000000&ip=&method=GET&r=" ++ r)) := by
  have h1 : urlWithAttrs 0 "http://x/y" ⟨.str "GET", none, some 1700000000000, ""⟩ r now =
      "http://x/y?expires=1700000000000&ip=&method=GET&r=" ++ r := rfl
  have h2 : urlWithAttrs 0 "http://x/y?a=b" ⟨.str "GET", none, some 1700000000000, ""⟩ r now =
      "http://x/y?a=b&expires=1700000000000&ip=&method=GET&r=" ++ r := rfl
  constructor
  · unfold sign
    show (match generateSignature supported prim "abc" "sha256"
        (urlWithAttrs 0 "http://x/y" ⟨.str "GET", none, some 1700000000000, ""⟩ r now) with
      | .error err => Except.error err
      | .ok sg => Except.ok (urlWithAttrs 0 "http://x/y"
          ⟨.str "GET", none, some 1700000000000, ""⟩ r now ++ "&sig=" ++ sg)) = _
    unfold generateSignature
    rw [ha]
    show Except.ok (urlWithAttrs 0 "http://x/y"
        ⟨.str "GET", none, some 1700000000000, ""⟩ r now ++ "&sig=" ++
        hmacHexDigest prim "sha256" "abc" (urlWithAttrs 0 "http://x/y"
          ⟨.str "GET", none, some 1700000000000, ""⟩ r now)) = _
    rw [h1]
  · unfold sign
    show (match generateSignature supported prim "abc" "sha256"
        (urlWithAttrs 0 "http://x/y?a=b" ⟨.str "GET", none, some 1700000000000, ""⟩ r now) with
      | .error err => Except.error err
      | .ok sg => Except.ok (urlWithAttrs 0 "http://x/y?a=b"
          ⟨.str "GET", none, some 1700000000000, ""⟩ r now ++ "&sig=" ++ sg)) = _
    unfold generateSignature
    rw [ha]
    show Except.ok (urlWithAttrs 0 "http://x/y?a=b"
        ⟨.str "GET", none, some 1700000000000, ""⟩ r now ++ "&sig=" ++
        hmacHexDigest prim "sha256" "abc" (urlWithAttrs 0 "http://x/y?a=b"
          ⟨.str "GET", none, some 1700000000000, ""⟩ r now)) = _
    rw [h2]

/-- Witness for C7 at a concrete supported-algorithm list and primitive. -/
theorem c7_wire_format_witness :
    sign (mkSignUrl ["sha256"] bytePrim ⟨some "abc", some 0, none⟩) "http://x/y"
        ⟨.str "GET", none, some 1700000000000, ""⟩ "RR" 0 =
      .ok ("http://x/y?expires=1700000000000&ip=&method=GET&r=" ++ "RR" ++ "&sig=" ++
        hmacHexDigest bytePrim "sha256" "abc"
          ("http://x/y?expires=1700000000000&ip=&method=GET&r=" ++ "RR")) :=
  (c7_wire_format ["sha256"] bytePrim "RR" 0 (by decide)).1

end SignUrlModel
